import Mathlib

/-!
Bethrou: connection pool, client dialer, discovery and supervisor.

A shallow embedding of the routing core of the Bethrou proxy overlay
(`pkg/proxy/pool.go`, `pkg/proxy/client.go`, `pkg/discovery/discovery.go`,
`pkg/config/config.go`, `client/config/config.go`, `client/client/client.go`)
together with theorems about it.

Conventions of the embedding:

* Go strings are `String`; `peer.ID` is a Go string type, so it is `String`.
* `time.Duration` (an `int64` count of nanoseconds) is `Int`.
* A Go `error` value is `Option String`: `none` is `nil`, `some msg` is an
  error whose `Error()` text is `msg`.
* A `*Connection` held by the pool is never `nil` (the only producer is
  `Pool.Add`), so the pool holds `Connection` values; a returned
  `*Connection` is `Option Connection`, `none` being `nil`.
* `rand.Intn(n)` is `r % n` for a raw draw `r : Nat`, which ranges over
  exactly the values `0 .. n-1` the library may return.
* Code that can hit a Go runtime panic returns `Run`, which separates a
  normal return from a panic.
* The locks of `Pool` serialise its methods; each method is modelled as one
  atomic step on the pool state.
* The package-level `logging.Logger` is a `nil` pointer until `logging.Setup`
  has run, and a log call through a `nil` logger panics. The supervisor
  `client.Connect` is the one function that logs before it calls
  `logging.Setup`, so it takes the state of the logger on entry; every other
  log call of the supervisor's run comes after `logging.Setup`.
-/

/-- Outcome of running Go code that may panic at run time. -/
inductive Run (α : Type) where
  | ret (a : α)
  | panic (msg : String)
  deriving Repr, DecidableEq

namespace proxy

/-- Go: `type PoolStrategy string`. -/
abbrev PoolStrategy := String

def RandomStrategy : PoolStrategy := "random"
def FastestStrategy : PoolStrategy := "latency"
def RoundRobinStrategy : PoolStrategy := "round-robin"

/-- Go: `Connection` of `pkg/proxy/client.go`. -/
structure Connection where
  PeerID : String
  Addr : String
  Latency : Int
  deriving Repr, DecidableEq

/-- Go: `Pool` of `pkg/proxy/pool.go` (the mutex is not state). The cursor
`rrIndex` is a Go `int`; it is only ever assigned a remainder modulo a slice
length, so it never leaves the `int` range and is modelled as `Int`. -/
structure Pool where
  conns : List Connection
  strategy : PoolStrategy
  rrIndex : Int
  deriving Repr, DecidableEq

/-- Go: `NewPool`. The argument is not used by the body. -/
def NewPool (_strategy : PoolStrategy) : Pool :=
  { conns := [], strategy := RandomStrategy, rrIndex := 0 }

def Pool.SetStrategy (p : Pool) (s : PoolStrategy) : Pool :=
  { p with strategy := s }

def Pool.GetStrategy (p : Pool) : PoolStrategy := p.strategy

/-- Go: `Pool.Add`: append a connection with latency 0. -/
def Pool.Add (p : Pool) (peerID : String) (addr : String) : Pool :=
  { p with conns := p.conns ++ [{ PeerID := peerID, Addr := addr, Latency := 0 }] }

/-- The loop of `Pool.Remove`: cut out the first entry whose peer id matches. -/
def removeFirst (peerID : String) : List Connection → List Connection
  | [] => []
  | c :: cs => if c.PeerID = peerID then cs else c :: removeFirst peerID cs

/-- Go: `Pool.Remove`. -/
def Pool.Remove (p : Pool) (peerID : String) : Pool :=
  { p with conns := removeFirst peerID p.conns }

/-- Go: `Pool.All`: a copy of the sequence. -/
def Pool.All (p : Pool) : List Connection := p.conns

/-- Go: `Pool.Size`. -/
def Pool.Size (p : Pool) : Nat := p.conns.length

/-- Go: `Pool.Clear`. -/
def Pool.Clear (p : Pool) : Pool := { p with conns := [] }

/-- The loop of `Pool.UpdateLatency`: set the latency of the first match. -/
def setLatencyFirst (peerID : String) (latency : Int) : List Connection → List Connection
  | [] => []
  | c :: cs =>
    if c.PeerID = peerID then { c with Latency := latency } :: cs
    else c :: setLatencyFirst peerID latency cs

/-- Go: `Pool.UpdateLatency`. -/
def Pool.UpdateLatency (p : Pool) (peerID : String) (latency : Int) : Pool :=
  { p with conns := setLatencyFirst peerID latency p.conns }

/-- Go: `rand.Intn(n)` for `n > 0`, from a raw draw `r`. -/
def Intn (r : Nat) (n : Nat) : Nat := r % n

/-- Go: `Pool.SelectRandom`. -/
def Pool.SelectRandom (p : Pool) (r : Nat) : Option Connection :=
  if p.conns.length = 0 then none
  else p.conns[Intn r p.conns.length]?

/-- One iteration of the scan of `Pool.SelectFastest`:
`if best == nil || (conn.Latency > 0 && conn.Latency < best.Latency) { best = conn }`. -/
def fastestStep (best : Option Connection) (conn : Connection) : Option Connection :=
  match best with
  | none => some conn
  | some b => if 0 < conn.Latency ∧ conn.Latency < b.Latency then some conn else some b

/-- The scan of `Pool.SelectFastest` over the slice, starting from `best`. -/
def fastestScan (best : Option Connection) (conns : List Connection) : Option Connection :=
  conns.foldl fastestStep best

/-- Go: `Pool.SelectFastest`. -/
def Pool.SelectFastest (p : Pool) (r : Nat) : Option Connection :=
  if p.conns.length = 0 then none
  else
    match fastestScan none p.conns with
    | none => p.conns[Intn r p.conns.length]?
    | some best =>
      if best.Latency = 0 then p.conns[Intn r p.conns.length]?
      else some best

/-- Go: `Pool.SelectRoundRobin`. `%` on Go ints truncates toward zero
(`Int.tmod`); indexing a slice with a negative or too large index panics. -/
def Pool.SelectRoundRobin (p : Pool) : Run (Option Connection × Pool) :=
  if p.conns.length = 0 then .ret (none, p)
  else
    let i := Int.tmod p.rrIndex p.conns.length
    if i < 0 then .panic "index out of range"
    else
      match p.conns[i.toNat]? with
      | none => .panic "index out of range"
      | some conn =>
        .ret (some conn, { p with rrIndex := Int.tmod (p.rrIndex + 1) p.conns.length })

/-- Go: `Pool.SelectByStrategy`. -/
def Pool.SelectByStrategy (p : Pool) (strategy : PoolStrategy) (r : Nat) :
    Run (Option Connection × Pool) :=
  if strategy = RandomStrategy then .ret (p.SelectRandom r, p)
  else if strategy = FastestStrategy then .ret (p.SelectFastest r, p)
  else if strategy = RoundRobinStrategy then p.SelectRoundRobin
  else .ret (p.SelectRandom r, p)

end proxy

namespace config

/-- Go: `NodeConfig` of `pkg/config/config.go`. -/
structure NodeConfig where
  ID : String
  Addrs : List String
  Relay : String
  deriving Repr, DecidableEq

/-- Go: `NodeConfig.Validate`. -/
def NodeConfig.Validate (n : NodeConfig) : Option String :=
  if n.ID = "" then some "node ID is required"
  else if n.Addrs.length = 0 ∧ n.Relay = "" then some "at least one address or relay is required"
  else none

/-- Go: `DiscoveryConfig` of `pkg/config/config.go`. -/
structure DiscoveryConfig where
  Enabled : Bool
  Address : String
  Topic : String
  Timeout : String
  User : String
  Pass : String
  deriving Repr, DecidableEq

/-- Go: `DiscoveryConfig.Validate`. -/
def DiscoveryConfig.Validate (d : DiscoveryConfig) : Option String :=
  if !d.Enabled then none
  else if d.Address = "" then some "discovery address is required when discovery is enabled"
  else if d.Topic = "" then some "discovery topic is required when discovery is enabled"
  else none

/-- Go: `LogConfig` of `pkg/config/config.go`. -/
structure LogConfig where
  Level : String
  Format : String
  deriving Repr, DecidableEq

/-- Go: `LogConfig.Validate`. It fills in the defaults in place, so the
updated record is returned next to the error. -/
def LogConfig.Validate (l : LogConfig) : LogConfig × Option String :=
  let l1 : LogConfig := if l.Level = "" then { l with Level := "info" } else l
  let l2 : LogConfig := if l1.Format = "" then { l1 with Format := "text" } else l1
  if l2.Format ≠ "text" ∧ l2.Format ≠ "json" then (l2, some ("invalid log format: " ++ l2.Format))
  else (l2, none)

end config

namespace proxy

open config

/-- A parsed multiaddress (`multiaddr.Multiaddr`); `str` is its `String()`. -/
structure Multiaddr where
  str : String
  deriving Repr, DecidableEq

/-- Go: `peer.AddrInfo`. -/
structure AddrInfo where
  ID : String
  Addrs : List Multiaddr
  deriving Repr, DecidableEq

/-- The state of the libp2p host that the dialer can observe: the calls it
has made so far, oldest first. `connects` lists every `Host.Connect` call,
`streams` every `Host.NewStream` call as (peer id, protocol id). -/
structure Host where
  connects : List AddrInfo
  streams : List (String × String)
  deriving Repr, DecidableEq

def ProxyProtocolID : String := "/bethrou/proxy/1.0.0"
def PingProtocolID : String := "/bethrou/ping/1.0.0"

/-- Go: `Request` of `pkg/proxy/messages.go`. -/
structure Request where
  ProxyAddress : String
  deriving Repr, DecidableEq

/-- Go: `ProxyResponse` of `pkg/proxy/messages.go`. -/
structure ProxyResponse where
  Status : String
  Message : String
  deriving Repr, DecidableEq

/-- The libraries and the network behind the dialer, none of which is code of
this repository. Every network outcome may depend on the whole history of the
host, so that two calls with the same arguments may end differently.

* `NewMultiaddr` is `multiaddr.NewMultiaddr`, `AddrInfoFromP2pAddr` is
  `peer.AddrInfoFromP2pAddr`;
* `Connect h info` is the error of `Host.Connect(ctx, info)` issued in host
  state `h`;
* `NewStream h peer proto` is the error of `Host.NewStream(ctx, peer, proto)`;
* `Encode h req` is the error of writing the JSON request on the stream just
  opened, `Decode h` the result of reading the JSON response from it;
* `Since h` is the `time.Since(start)` measured by a probe. -/
structure Net where
  NewMultiaddr : String → Except String Multiaddr
  AddrInfoFromP2pAddr : Multiaddr → Except String AddrInfo
  Connect : Host → AddrInfo → Option String
  NewStream : Host → String → String → Option String
  Encode : Host → Request → Option String
  Decode : Host → Except String ProxyResponse
  Since : Host → Int

/-- One `Host.Connect` call: its error and the host afterwards. -/
def Host.Connect (net : Net) (h : Host) (info : AddrInfo) : Option String × Host :=
  (net.Connect h info, { h with connects := h.connects ++ [info] })

/-- One `Host.NewStream` call: its error and the host afterwards. -/
def Host.NewStream (net : Net) (h : Host) (peerID : String) (proto : String) :
    Option String × Host :=
  (net.NewStream h peerID proto, { h with streams := h.streams ++ [(peerID, proto)] })

/-- Go: `Client` of `pkg/proxy/client.go`. -/
structure Client where
  Host : Host
  Pool : Pool
  deriving Repr, DecidableEq

/-- Go: `NewClient`. -/
def NewClient (h : Host) (p : Pool) : Client := { Host := h, Pool := p }

/-- Go: `Client.Ping`: the measured latency, or the error of the probe. -/
def Client.Ping (net : Net) (d : Client) (conn : Connection) : Except String Int × Client :=
  match Host.NewStream net d.Host conn.PeerID PingProtocolID with
  | (some err, h) => (.error ("probe new stream failed: " ++ err), { d with Host := h })
  | (none, h) => (.ok (net.Since h), { d with Host := h })

/-- The stream adapter returned by a successful `Client.Dial`: the exit peer
and the destination of the proxy stream it wraps. -/
structure Adapter where
  Peer : String
  Dest : String
  deriving Repr, DecidableEq

/-- Go: `Client.Dial`. -/
def Client.Dial (net : Net) (d : Client) (peerID : String) (addr : String) :
    Except String Adapter × Client :=
  match Host.NewStream net d.Host peerID ProxyProtocolID with
  | (some err, h) => (.error ("failed to open stream: " ++ err), { d with Host := h })
  | (none, h) =>
    match net.Encode h { ProxyAddress := addr } with
    | some err => (.error ("failed to send request: " ++ err), { d with Host := h })
    | none =>
      match net.Decode h with
      | .error err => (.error ("failed to read response: " ++ err), { d with Host := h })
      | .ok resp =>
        if resp.Status ≠ "ok" then
          (.error ("proxy failed: " ++ resp.Message), { d with Host := h })
        else (.ok { Peer := peerID, Dest := addr }, { d with Host := h })

/-- Go: `Client.dialConnection`. -/
def Client.dialConnection (net : Net) (d : Client) (conn : Option Connection) (addr : String) :
    Except String Adapter × Client :=
  match conn with
  | none => (.error "connection is nil", d)
  | some c => d.Dial net c.PeerID addr

/-- Go: `Client.DialRandom`. -/
def Client.DialRandom (net : Net) (d : Client) (r : Nat) (addr : String) :
    Except String Adapter × Client :=
  match d.Pool.SelectRandom r with
  | none => (.error "no exit nodes available", d)
  | some c => d.dialConnection net (some c) addr

/-- Go: `Client.DialFastest`. -/
def Client.DialFastest (net : Net) (d : Client) (r : Nat) (addr : String) :
    Except String Adapter × Client :=
  match d.Pool.SelectFastest r with
  | none => (.error "no exit nodes available", d)
  | some c => d.dialConnection net (some c) addr

/-- Go: `Client.DialRoundRobin`. -/
def Client.DialRoundRobin (net : Net) (d : Client) (addr : String) :
    Run (Except String Adapter × Client) :=
  match d.Pool.SelectRoundRobin with
  | .panic msg => .panic msg
  | .ret (none, pool) => .ret (.error "no exit nodes available", { d with Pool := pool })
  | .ret (some c, pool) => .ret (Client.dialConnection net { d with Pool := pool } (some c) addr)

/-- Go: `Client.DialByStrategy`. -/
def Client.DialByStrategy (net : Net) (d : Client) (r : Nat) (addr : String) :
    Run (Except String Adapter × Client) :=
  if d.Pool.GetStrategy = RandomStrategy then .ret (d.DialRandom net r addr)
  else if d.Pool.GetStrategy = FastestStrategy then .ret (d.DialFastest net r addr)
  else if d.Pool.GetStrategy = RoundRobinStrategy then d.DialRoundRobin net addr
  else .ret (.error "unknown dialing strategy", d)

/-- The relay branch of `Client.connect` (`node.Relay != ""`). -/
def Client.connectRelay (net : Net) (p : Client) (node : NodeConfig) : Option String × Client :=
  match net.NewMultiaddr node.Relay with
  | .error err => (some ("invalid relay multiaddr: " ++ err), p)
  | .ok relayMA =>
    match net.AddrInfoFromP2pAddr relayMA with
    | .error err => (some ("invalid relay p2p address: " ++ err), p)
    | .ok relayInfo =>
      match Host.Connect net p.Host relayInfo with
      | (some err, h) => (some ("failed to connect to relay: " ++ err), { p with Host := h })
      | (none, h) =>
        match net.NewMultiaddr (relayMA.str ++ "/p2p-circuit/p2p/" ++ node.ID) with
        | .error err => (some ("failed to create circuit address: " ++ err), { p with Host := h })
        | .ok circuitAddr =>
          match net.AddrInfoFromP2pAddr circuitAddr with
          | .error err => (some ("invalid circuit p2p address: " ++ err), { p with Host := h })
          | .ok nodeInfo =>
            match Host.Connect net h nodeInfo with
            | (some err, h2) =>
              (some ("failed to connect to node via relay: " ++ err), { p with Host := h2 })
            | (none, h2) =>
              (none, { Host := h2, Pool := p.Pool.Add nodeInfo.ID circuitAddr.str })

/-- The address loop of `Client.connect`, from the loop state `lastErr` on:
returns `connected`, `lastErr` and the client afterwards. -/
def Client.dialAddrs (net : Net) :
    List String → Option String → Client → Bool × Option String × Client
  | [], lastErr, p => (false, lastErr, p)
  | addr :: rest, lastErr, p =>
    match net.NewMultiaddr addr with
    | .error err => Client.dialAddrs net rest (some err) p
    | .ok nodeMA =>
      match net.AddrInfoFromP2pAddr nodeMA with
      | .error err => Client.dialAddrs net rest (some err) p
      | .ok nodeInfo =>
        match Host.Connect net p.Host nodeInfo with
        | (some err, h) => Client.dialAddrs net rest (some err) { p with Host := h }
        | (none, h) => (true, lastErr, { Host := h, Pool := p.Pool.Add nodeInfo.ID addr })

/-- Go: `Client.connect`. After the address loop, `lastErr.Error()` is called
on a `nil` interface when no iteration assigned `lastErr`: a nil-pointer
panic. -/
def Client.connect (net : Net) (p : Client) (node : NodeConfig) : Run (Option String × Client) :=
  if node.Relay ≠ "" then .ret (p.connectRelay net node)
  else
    match Client.dialAddrs net node.Addrs none p with
    | (true, _, p1) => .ret (none, p1)
    | (false, some lastErr, p1) => .ret (some ("failed to connect to node: " ++ lastErr), p1)
    | (false, none, _) => .panic "invalid memory address or nil pointer dereference"

/-- Go: `Client.Connect`. -/
def Client.Connect (net : Net) : Client → List NodeConfig → Run (Option String × Client)
  | p, [] => .ret (none, p)
  | p, node :: rest =>
    match p.connect net node with
    | .panic msg => .panic msg
    | .ret (some err, p1) => .ret (some err, p1)
    | .ret (none, p1) => Client.Connect net p1 rest

end proxy

namespace discovery

open config

/-- Go: `Response` of `pkg/discovery/discovery.go`. -/
structure Response where
  ID : String
  Addrs : List String
  deriving Repr, DecidableEq

/-- Go: `discoveredMap`, a `map[string]config.NodeConfig`. The keys are kept
in insertion order here; the order in which Go ranges over the map is chosen
separately, see `mapRange`. -/
abbrev NodeMap := List (String × NodeConfig)

/-- Go: `_, exists := m[key]`. -/
def mapHas (m : NodeMap) (key : String) : Bool := m.any (fun e => e.1 = key)

/-- Go: `m[key] = v`. -/
def mapSet (m : NodeMap) (key : String) (v : NodeConfig) : NodeMap :=
  if mapHas m key then m.map (fun e => if e.1 = key then (key, v) else e)
  else m ++ [(key, v)]

/-- Go: `for _, n := range m`, whose order the language leaves open: the
values come in the permutation of the entries picked by `order`. -/
def mapRange (order : Nat) (m : NodeMap) : List NodeConfig :=
  (m.permutations.getD (order % m.permutations.length) m).map (fun e => e.2)

/-- The body of the `case msg := <-ch` branch of `collectDiscover` for one
message payload: the map afterwards, or the error returned. `unmarshal` is
`json.Unmarshal` into a `Response`. -/
def collectStep (unmarshal : String → Except String Response) (m : NodeMap) (payload : String) :
    Except String NodeMap :=
  match unmarshal payload with
  | .error err => .error ("invalid JSON: " ++ err)
  | .ok resp =>
    if resp.ID = "" ∨ resp.Addrs.length = 0 then
      .error "incomplete response: missing ID or addresses"
    else
      let node : NodeConfig := { ID := resp.ID, Addrs := resp.Addrs, Relay := "" }
      if node.ID ≠ "" then
        if !mapHas m node.ID then .ok (mapSet m node.ID node) else .ok m
      else .ok m

/-- The receive loop of `collectDiscover` over the payloads that arrive
before the loop is left (deadline, cancellation or closed channel). -/
def collectLoop (unmarshal : String → Except String Response) :
    NodeMap → List String → Except String NodeMap
  | m, [] => .ok m
  | m, payload :: rest =>
    match collectStep unmarshal m payload with
    | .error err => .error err
    | .ok m1 => collectLoop unmarshal m1 rest

/-- Go: `Service.collectDiscover`, run on the payloads `msgs` received
before the loop is left. -/
def collectDiscover (unmarshal : String → Except String Response) (order : Nat)
    (msgs : List String) : Except String (List NodeConfig) :=
  match collectLoop unmarshal [] msgs with
  | .error err => .error err
  | .ok m => .ok (mapRange order m)

/-- A sample decoder for worked examples: three payloads that decode to
responses of the peers `A`, `B` and `A` again, every other payload being
rejected. -/
def sampleUnmarshal (payload : String) : Except String Response :=
  if payload = "m1" then .ok { ID := "A", Addrs := ["/a1"] }
  else if payload = "m2" then .ok { ID := "B", Addrs := ["/b"] }
  else if payload = "m3" then .ok { ID := "A", Addrs := ["/a2"] }
  else .error "unexpected end of JSON input"

end discovery

namespace client

open config

/-- Go: `ServerConfig` of `client/config/config.go`. -/
structure ServerConfig where
  ListenAddr : String
  Auth : Bool
  User : String
  Pass : String
  deriving Repr, DecidableEq

/-- Go: `ServerConfig.Validate`. -/
def ServerConfig.Validate (s : ServerConfig) : Option String :=
  if s.ListenAddr = "" then some "SOCKS listen address is required"
  else if s.Auth ∧ (s.User = "" ∨ s.Pass = "") then
    some "SOCKS auth enabled but user or pass is empty"
  else none

/-- Go: `RoutingConfig` of `client/config/config.go`. -/
structure RoutingConfig where
  Strategy : String
  Health : String
  Timeout : String
  deriving Repr, DecidableEq

/-- Go: `RoutingConfig.Validate`; `parseDuration` is `time.ParseDuration`. -/
def RoutingConfig.Validate (parseDuration : String → Except String Int) (s : RoutingConfig) :
    Option String :=
  if ¬ (s.Strategy = "" ∨ s.Strategy = "random" ∨ s.Strategy = "fastest"
      ∨ s.Strategy = "round-robin") then
    some ("unsupported routing strategy: " ++ s.Strategy)
  else
    match (if s.Health ≠ "" then parseDuration s.Health else .ok 0) with
    | .error err => some ("invalid routing.health duration: " ++ err)
    | .ok _ =>
      match (if s.Timeout ≠ "" then parseDuration s.Timeout else .ok 0) with
      | .error err => some ("invalid routing.timeout duration: " ++ err)
      | .ok _ => none

/-- Go: `ClientConfig` of `client/config/config.go`; a `nil` pointer field is
`none`. -/
structure ClientConfig where
  Key : String
  Server : Option ServerConfig
  Routing : Option RoutingConfig
  Nodes : List NodeConfig
  Discovery : Option DiscoveryConfig
  Log : Option LogConfig
  deriving Repr, DecidableEq

/-- Go: `ClientConfig.Validate`. The log section is updated in place by
`LogConfig.Validate`, so the configuration afterwards is returned next to
the error. -/
def ClientConfig.Validate (parseDuration : String → Except String Int) (c : ClientConfig) :
    ClientConfig × Option String :=
  if c.Key = "" then (c, some "network key is required")
  else
    match c.Server with
    | none => (c, some "server config is required")
    | some server =>
      match server.Validate with
      | some err => (c, some ("server config validation failed: " ++ err))
      | none =>
        match c.Routing with
        | none => (c, some "routing config is required")
        | some routing =>
          match routing.Validate parseDuration with
          | some err => (c, some ("routing config validation failed: " ++ err))
          | none =>
            match c.Discovery with
            | none => (c, some "discovery config is required")
            | some disc =>
              match disc.Validate with
              | some err => (c, some ("discovery config validation failed: " ++ err))
              | none =>
                if c.Nodes.length = 0 ∧ !disc.Enabled then
                  (c, some "at least one static node or discovery must be enabled")
                else
                  match c.Log with
                  | none => (c, some "log config is required")
                  | some log =>
                    match log.Validate with
                    | (log1, some err) =>
                      ({ c with Log := some log1 }, some ("log config validation failed: " ++ err))
                    | (log1, none) => ({ c with Log := some log1 }, none)

/-- Go: `pol := proxy.NewPool(proxy.PoolStrategy(cfg.Routing.Strategy))` in
`Connect`, for the routing section of a validated configuration. -/
def newPoolFor (routing : RoutingConfig) : proxy.Pool :=
  proxy.NewPool routing.Strategy

/-- The merge loop of `Connect` for a non-empty `nodes`: `seen` holds the ids
met so far; a discovered node whose id is in `seen` is skipped, any other is
appended and its id recorded. -/
def mergeLoop : List NodeConfig → List String → List NodeConfig → List NodeConfig
  | nodes, _, [] => nodes
  | nodes, seen, n :: rest =>
    if n.ID ∈ seen then mergeLoop nodes seen rest
    else mergeLoop (nodes ++ [n]) (seen ++ [n.ID]) rest

/-- The node list built by `Connect` when discovery is enabled and returned
`dnodes`: the static nodes `cfgNodes` first, then the merge. -/
def mergeNodes (cfgNodes : List NodeConfig) (dnodes : List NodeConfig) : List NodeConfig :=
  let nodes : List NodeConfig := [] ++ cfgNodes
  if nodes.length = 0 then dnodes
  else mergeLoop nodes (nodes.map (fun n => n.ID)) dnodes

/-- Go: `time.Hour`, in nanoseconds. -/
def Hour : Int := 3600000000000

/-- The body of the probe loop of one health tick for one snapshot entry. -/
def probeOne (net : proxy.Net) (cli : proxy.Client) (c : proxy.Connection) : proxy.Client :=
  match cli.Ping net c with
  | (.error _, cli1) => { cli1 with Pool := cli1.Pool.UpdateLatency c.PeerID Hour }
  | (.ok lat, cli1) => { cli1 with Pool := cli1.Pool.UpdateLatency c.PeerID lat }

/-- One tick of the health goroutine of `Connect`: probe every entry of the
snapshot `pol.All()` in order. -/
def healthTick (net : proxy.Net) (cli : proxy.Client) : proxy.Client :=
  cli.Pool.All.foldl (probeOne net) cli

end client

/-! ## Runs of pool operations -/

namespace proxy

/-- The peer ids and addresses of a sequence of connections, in order. -/
def endpoints (cs : List Connection) : List (String × String) :=
  cs.map (fun c => (c.PeerID, c.Addr))

/-- The results of `n` consecutive `SelectRoundRobin` calls on a pool, with no
other pool operation in between, and the pool afterwards. -/
def rrRun : Nat → Pool → Run (List (Option Connection) × Pool)
  | 0, p => .ret ([], p)
  | n + 1, p =>
    match p.SelectRoundRobin with
    | .panic msg => .panic msg
    | .ret (c, p1) =>
      match rrRun n p1 with
      | .panic msg => .panic msg
      | .ret (cs, p2) => .ret (c :: cs, p2)

/-- The pool states that the public methods can produce from `NewPool`. The
selectors `SelectRandom` and `SelectFastest` do not change the pool, so only
`SelectRoundRobin` appears among the steps. -/
inductive Reachable : Pool → Prop where
  | new (s : PoolStrategy) : Reachable (NewPool s)
  | add (p : Pool) (peerID addr : String) : Reachable p → Reachable (p.Add peerID addr)
  | remove (p : Pool) (peerID : String) : Reachable p → Reachable (p.Remove peerID)
  | clear (p : Pool) : Reachable p → Reachable p.Clear
  | updateLatency (p : Pool) (peerID : String) (latency : Int) :
      Reachable p → Reachable (p.UpdateLatency peerID latency)
  | setStrategy (p : Pool) (s : PoolStrategy) : Reachable p → Reachable (p.SetStrategy s)
  | selectRoundRobin (p q : Pool) (c : Option Connection) :
      Reachable p → p.SelectRoundRobin = Run.ret (c, q) → Reachable q

/-- A mutation of the pool membership: a call of `Add` or of `Remove`. -/
inductive Op where
  | add (peerID : String) (addr : String)
  | remove (peerID : String)
  deriving Repr, DecidableEq

/-- Run one membership operation on the pool. -/
def applyOp (p : Pool) : Op → Pool
  | .add peerID addr => p.Add peerID addr
  | .remove peerID => p.Remove peerID

/-- Run a sequence of membership operations, first to last. -/
def runOps (p : Pool) (ops : List Op) : Pool := ops.foldl applyOp p

/-- Whether the operation is an `Add` of the peer `x`. -/
def Op.isAddOf (x : String) : Op → Bool
  | .add peerID _ => peerID = x
  | .remove _ => false

/-- Whether the operation is a `Remove` of the peer `x`. -/
def Op.isRemoveOf (x : String) : Op → Bool
  | .add _ _ => false
  | .remove peerID => peerID = x

/-- How many times the sequence adds the peer `x`. -/
def adds (x : String) (ops : List Op) : Nat := ops.countP (Op.isAddOf x)

/-- How many times the sequence removes the peer `x`. -/
def removes (x : String) (ops : List Op) : Nat := ops.countP (Op.isRemoveOf x)

/-- How many connections of the sequence belong to the peer `x`. -/
def peerCount (x : String) (cs : List Connection) : Nat := cs.countP (fun c => c.PeerID = x)

/-- A sequence is balanced when every peer is added exactly as many times as
it is removed. -/
def balanced (ops : List Op) : Prop := ∀ x : String, adds x ops = removes x ops

end proxy

/-! ## Attempts on single addresses -/

namespace proxy

/-- What one iteration of the address loop of `Client.connect` does with the
address `addr` in host state `h`: parse it, resolve it, dial it. Returns the
peer reached or the error, and the host afterwards. -/
def tryAddr (net : Net) (h : Host) (addr : String) : Except String AddrInfo × Host :=
  match net.NewMultiaddr addr with
  | .error err => (.error err, h)
  | .ok nodeMA =>
    match net.AddrInfoFromP2pAddr nodeMA with
    | .error err => (.error err, h)
    | .ok nodeInfo =>
      match Host.Connect net h nodeInfo with
      | (some err, h1) => (.error err, h1)
      | (none, h1) => (.ok nodeInfo, h1)

/-- Try the addresses one after the other, each in the host state left by the
one before. `some h` when every one of them fails, `h` being the host state
afterwards; `none` as soon as one of them succeeds. -/
def failRun (net : Net) : Host → List String → Option Host
  | h, [] => some h
  | h, addr :: rest =>
    match tryAddr net h addr with
    | (.error _, h1) => failRun net h1 rest
    | (.ok _, _) => none

end proxy

/-! ## Sample environment for worked examples -/

namespace proxy

open config

/-- A sample network: the text `garbage` is not a multiaddress, every other
text parses to itself and names the peer `N`; dialling `10.0.0.1` fails, any
other dial succeeds; streams open, and the exit answers `ok`. -/
def sampleNet : Net :=
  { NewMultiaddr := fun s =>
      if s = "garbage" then .error "failed to parse multiaddr" else .ok { str := s }
    AddrInfoFromP2pAddr := fun ma => .ok { ID := "N", Addrs := [ma] }
    Connect := fun _ info =>
      if info.Addrs = [{ str := "/ip4/10.0.0.1/tcp/4001/p2p/N" }] then some "dial backoff"
      else none
    NewStream := fun _ _ _ => none
    Encode := fun _ _ => none
    Decode := fun _ => .ok { Status := "ok", Message := "" }
    Since := fun _ => 20000000 }

/-- A sample descriptor: an unparsable address, an unreachable one, a
reachable one, and one more after it. -/
def sampleNode : NodeConfig :=
  { ID := "N",
    Addrs := ["garbage", "/ip4/10.0.0.1/tcp/4001/p2p/N", "/ip4/127.0.0.1/tcp/4001/p2p/N",
      "/ip4/127.0.0.1/tcp/4002/p2p/N"],
    Relay := "" }

/-- A dialer that has made no call yet, with the empty pool of `NewPool`. -/
def freshClient : Client := NewClient { connects := [], streams := [] } (NewPool RandomStrategy)

end proxy

/-! ## Supervisor -/

namespace client

open config

/-- The steps of the supervisor that the outside can observe, in the order in
which `Connect` takes them. -/
inductive Event where
  | loggingSetup
  | hostCreated
  | poolCreated (pool : proxy.Pool)
  | discoveryRun
  | nodesConnected (cli : proxy.Client)
  | healthStarted (interval : Int) (timeout : Int)
  | socksServed
  | hostClosed
  deriving Repr, DecidableEq

/-- The collaborators of the supervisor outside `client/client/client.go`.

* `net` is the libp2p side of the dialer;
* `parseDuration` is `time.ParseDuration`;
* `NewClient key` is `host.NewClient(key)`: the new host or the error;
* `Discover address topic timeout` is the result of `svc.Discover(ctx)` on
  the discovery service built for that broker address, topic and timeout;
* `ListenAndServe cli` is the error with which the SOCKS5 server stops, `none`
  when it stops without one. -/
structure Sys where
  net : proxy.Net
  parseDuration : String → Except String Int
  NewClient : String → Except String proxy.Host
  Discover : String → String → Int → Except String (List NodeConfig)
  ListenAndServe : proxy.Client → Option String

/-- Go: `time.Second`, in nanoseconds. -/
def Second : Int := 1000000000

/-- Go: `discover` of `client/client/client.go`. `discovery.NewService`
rejects an empty broker address. -/
def discover (sys : Sys) (cfg : DiscoveryConfig) : Except String (List NodeConfig) :=
  if cfg.Topic = "" then .error "discovery topic is required"
  else
    let timeout : Int :=
      match sys.parseDuration cfg.Timeout with
      | .error _ => 10 * Second
      | .ok t => t
    if cfg.Address = "" then .error "discovery address is required"
    else
      match sys.Discover cfg.Address cfg.Topic timeout with
      | .error err => .error err
      | .ok nodes =>
        if nodes.length = 0 then .error "discovery returned no nodes"
        else .ok nodes

/-- The node list of `Connect`: the static nodes, merged with the discovered
ones when discovery is enabled; the error when discovery fails. -/
def gatherNodes (sys : Sys) (cfgNodes : List NodeConfig) (disc : DiscoveryConfig) :
    Except String (List NodeConfig) :=
  if disc.Enabled then
    match discover sys disc with
    | .error err => .error ("discovery failed: " ++ err)
    | .ok dnodes => .ok (mergeNodes cfgNodes dnodes)
  else .ok ([] ++ cfgNodes)

/-- The health settings of `Connect`: the interval and the probe timeout of
the health goroutine when one is started. -/
def healthSettings (sys : Sys) (routing : RoutingConfig) : Option (Int × Int) :=
  if routing.Health ≠ "" then
    match sys.parseDuration routing.Health with
    | .error _ => none
    | .ok healthDur =>
      if 0 < healthDur then
        let timeoutDur : Int :=
          if routing.Timeout ≠ "" then
            match sys.parseDuration routing.Timeout with
            | .ok td => td
            | .error _ => 0 * Second
          else 0 * Second
        some (healthDur, timeoutDur)
      else none
  else none

/-- Go: `Connect` of `client/client/client.go`: the error it returns and the
steps it took, oldest first. `logger` tells whether the package-level
`logging.Logger` is already set when `Connect` is called (it is not in the
shipped command, which calls `Connect` right after reading the configuration).
When validation fails, `Connect` first reports the failure with
`logging.Logger.Error`, before `logging.Setup` has run: with a `nil` logger
that call panics. The deferred `hst.Close()` runs on every return after the
host was created. A `nil` section of the configuration that is dereferenced is
a panic. -/
def Connect (sys : Sys) (logger : Bool) (cfg : ClientConfig) :
    Run (Option String × List Event) :=
  match cfg.Validate sys.parseDuration with
  | (_, some err) =>
    if logger then .ret (some ("invalid configuration: " ++ err), [])
    else .panic "invalid memory address or nil pointer dereference"
  | (cfg1, none) =>
    match sys.NewClient cfg1.Key with
    | .error err => .ret (some ("failed to create host: " ++ err), [.loggingSetup])
    | .ok hst =>
      match cfg1.Routing with
      | none => .panic "invalid memory address or nil pointer dereference"
      | some routing =>
        let pol := newPoolFor routing
        let cli := proxy.NewClient hst pol
        let ev1 : List Event := [.loggingSetup, .hostCreated, .poolCreated pol]
        match cfg1.Discovery with
        | none => .panic "invalid memory address or nil pointer dereference"
        | some disc =>
          let ev2 : List Event := if disc.Enabled then ev1 ++ [.discoveryRun] else ev1
          match gatherNodes sys cfg1.Nodes disc with
          | .error err => .ret (some err, ev2 ++ [.hostClosed])
          | .ok nodes =>
            match cli.Connect sys.net nodes with
            | .panic msg => .panic msg
            | .ret (some err, _) =>
              .ret (some ("failed to connect to exit nodes: " ++ err), ev2 ++ [.hostClosed])
            | .ret (none, cli1) =>
              let ev3 : List Event := ev2 ++ [.nodesConnected cli1]
              let ev4 : List Event :=
                match healthSettings sys routing with
                | some (healthDur, timeoutDur) => ev3 ++ [.healthStarted healthDur timeoutDur]
                | none => ev3
              match cfg1.Server with
              | none => .panic "invalid memory address or nil pointer dereference"
              | some _ =>
                match sys.ListenAndServe cli1 with
                | some err =>
                  .ret (some ("SOCKS5 server error: " ++ err), ev4 ++ [.socksServed, .hostClosed])
                | none => .ret (none, ev4 ++ [.socksServed, .hostClosed])

end client



namespace client

open config

/-- A sample duration parser for worked examples: it knows `30s`, `5s` and
`0s` and rejects every other text. -/
def sampleParseDuration (s : String) : Except String Int :=
  if s = "30s" then .ok (30 * Second)
  else if s = "5s" then .ok (5 * Second)
  else if s = "0s" then .ok 0
  else .error "time: invalid duration"

/-- A sample environment of the supervisor: the sample network, a host that
is always created, a broker that announces the sample node, and a SOCKS5
server that stops without error. -/
def sampleSys : Sys :=
  { net := proxy.sampleNet
    parseDuration := sampleParseDuration
    NewClient := fun _ => .ok { connects := [], streams := [] }
    Discover := fun _ _ _ => .ok [proxy.sampleNode]
    ListenAndServe := fun _ => none }

/-- A sample configuration: one static node, discovery disabled, round-robin
routing. -/
def sampleConfig : ClientConfig :=
  { Key := "network.key",
    Server := some { ListenAddr := "127.0.0.1:1080", Auth := false, User := "", Pass := "" },
    Routing := some { Strategy := "round-robin", Health := "", Timeout := "" },
    Nodes := [proxy.sampleNode],
    Discovery := some { Enabled := false, Address := "", Topic := "", Timeout := "",
                        User := "", Pass := "" },
    Log := some { Level := "info", Format := "text" } }

end client

/-! ## Discovery: malformed responses, deadline, server side -/

namespace discovery

open config

/-- A payload that `collectDiscover` does not accept as a response: it is not
valid JSON, or it decodes to a response with an empty id or without
addresses. -/
def malformed (unmarshal : String → Except String Response) (payload : String) : Bool :=
  match unmarshal payload with
  | .error _ => true
  | .ok resp => decide (resp.ID = "") || decide (resp.Addrs.length = 0)

/-- The duration with which `collectDiscover` arms its deadline timer, from
the configured `Timeout`:
`timeout := s.config.Timeout; if timeout == 0 { timeout = 10 * time.Second }`. -/
def collectTimeout (configured : Int) : Int :=
  if configured = 0 then 10 * client.Second else configured

/-- Go: `Request` of `pkg/discovery/discovery.go`. -/
structure Request where
  Action : String
  Replay : String
  deriving Repr, DecidableEq

/-- The messages published on the broker so far, oldest first, each with its
channel. -/
abbrev Bus := List (String × String)

/-- The libraries and the broker behind the discovery server.

* `TrimSpace` is `strings.TrimSpace`;
* `UnmarshalRequest` is `json.Unmarshal` into a `Request`;
* `MarshalResponse` is `json.Marshal` of a `Response`;
* `Publish bus channel message` is the error of the broker's `Publish` for a
  message sent when `bus` had been published before. -/
structure Deps where
  TrimSpace : String → String
  UnmarshalRequest : String → Except String Request
  MarshalResponse : Response → Except String String
  Publish : Bus → String → String → Option String

/-- The discovery service in server mode: its configured topic and the
identity and addresses of the host attached to it. -/
structure Service where
  Topic : String
  HostID : String
  HostAddrs : List String
  deriving Repr, DecidableEq

/-- The response built by `Service.publish`: the id of the host and each of
its addresses with the p2p suffix appended. -/
def Service.response (s : Service) : Response :=
  { ID := s.HostID, Addrs := s.HostAddrs.map (fun a => a ++ "/p2p/" ++ s.HostID) }

/-- Go: `Service.publish`: the error returned and the bus afterwards. -/
def Service.publish (deps : Deps) (s : Service) (bus : Bus) (reply : String) :
    Option String × Bus :=
  match deps.MarshalResponse s.response with
  | .error err => (some ("failed to marshal response: " ++ err), bus)
  | .ok b =>
    match deps.Publish bus reply b with
    | some err => (some ("failed to publish to " ++ reply ++ ": " ++ err), bus ++ [(reply, b)])
    | none => (none, bus ++ [(reply, b)])

/-- Go: `Service.process`: the error returned and the bus afterwards. -/
def Service.process (deps : Deps) (s : Service) (bus : Bus) (payload : String) :
    Option String × Bus :=
  let payload := deps.TrimSpace payload
  if payload = "" then (none, bus)
  else
    match deps.UnmarshalRequest payload with
    | .error _ => (none, bus)
    | .ok req =>
      let reply := req.Replay
      if reply = "" then (none, bus)
      else if req.Action ≠ "" ∧ req.Action ≠ "discover" then (none, bus)
      else s.publish deps bus reply

/-- A sample set of libraries for worked examples: trimming is `String.trim`,
two request payloads decode (one asks to discover, one to leave), responses
are marshalled to their id, and the broker accepts every message. -/
def sampleDeps : Deps :=
  { TrimSpace := fun s => s.trim
    UnmarshalRequest := fun s =>
      if s = "discover-request" then .ok { Action := "discover", Replay := "client-reply-1" }
      else if s = "leave-request" then .ok { Action := "leave", Replay := "client-reply-2" }
      else .error "invalid character"
    MarshalResponse := fun r => .ok r.ID
    Publish := fun _ _ _ => none }

end discovery

namespace discovery

/-- A payload that asks for discovery: trimmed of surrounding whitespace it
is JSON that decodes to a request with a non-empty reply field and an action
that is empty (absent) or exactly `discover`. -/
def asksDiscovery (deps : Deps) (payload : String) : Bool :=
  match deps.UnmarshalRequest (deps.TrimSpace payload) with
  | .error _ => false
  | .ok req =>
    decide (req.Replay ≠ "") && (decide (req.Action = "") || decide (req.Action = "discover"))

/-- The reply channel named by a payload, when it decodes to a request. -/
def replyOf (deps : Deps) (payload : String) : String :=
  match deps.UnmarshalRequest (deps.TrimSpace payload) with
  | .error _ => ""
  | .ok req => req.Replay

end discovery

/-! ## Node identity -/

namespace identity

/-- The content of a file, byte by byte. -/
abbrev Bytes := List Nat

/-- A file on disk: its content and its permission bits. -/
structure File where
  data : Bytes
  perm : Nat
  deriving Repr, DecidableEq

/-- The files on disk, by path; `none` where no file exists. -/
abbrev FS := String → Option File

/-- The libraries behind the identity manager, for a type `K` of private
keys (`crypto.PrivKey`).

* `GenerateEd25519Key rnd` is `crypto.GenerateEd25519Key(rand.Reader)` when
  the reader yields the randomness `rnd`;
* `MarshalPrivateKey`, `UnmarshalPrivateKey` are the functions of those names;
* `Equals` is the method `Equals` of a private key;
* `WriteErr path data` is the error, if any, with which the operating system
  refuses `os.WriteFile(path, data, perm)`. -/
structure Lib (K : Type) where
  GenerateEd25519Key : Nat → Except String K
  MarshalPrivateKey : K → Except String Bytes
  UnmarshalPrivateKey : Bytes → Except String K
  Equals : K → K → Bool
  WriteErr : String → Bytes → Option String

def defaultKeyFile : String := "node.key"

/-- Go: `keyFilePerms = 0o600`. -/
def keyFilePerms : Nat := 0o600

/-- Go: `Manager`. -/
structure Manager where
  keyPath : String
  deriving Repr, DecidableEq

/-- Go: `NewManager`. -/
def NewManager (keyPath : String) : Manager :=
  if keyPath = "" then { keyPath := defaultKeyFile } else { keyPath := keyPath }

/-- Go: `os.ReadFile`. -/
def ReadFile (fs : FS) (path : String) : Except String Bytes :=
  match fs path with
  | none => .error ("open " ++ path ++ ": no such file or directory")
  | some f => .ok f.data

/-- Go: `os.WriteFile(path, data, perm)`: the error and the files afterwards.
The permission bits are those of the call when the file is created; an
existing file keeps its own. -/
def WriteFile {K : Type} (lib : Lib K) (fs : FS) (path : String) (data : Bytes) (perm : Nat) :
    Option String × FS :=
  match lib.WriteErr path data with
  | some err => (some err, fs)
  | none =>
    let file : File :=
      match fs path with
      | none => { data := data, perm := perm }
      | some old => { data := data, perm := old.perm }
    (none, fun q => if q = path then some file else fs q)

/-- Go: `Manager.load`. -/
def Manager.load {K : Type} (lib : Lib K) (m : Manager) (fs : FS) : Except String K :=
  match ReadFile fs m.keyPath with
  | .error err => .error ("failed to read key file: " ++ err)
  | .ok b =>
    match lib.UnmarshalPrivateKey b with
    | .error err => .error ("failed to unmarshal private key: " ++ err)
    | .ok priv => .ok priv

/-- Go: `Manager.generateAndSave`: the key or the error, and the files
afterwards. -/
def Manager.generateAndSave {K : Type} (lib : Lib K) (rnd : Nat) (m : Manager) (fs : FS) :
    Except String K × FS :=
  match lib.GenerateEd25519Key rnd with
  | .error err => (.error ("failed to generate key: " ++ err), fs)
  | .ok priv =>
    match lib.MarshalPrivateKey priv with
    | .error err => (.error ("failed to marshal private key: " ++ err), fs)
    | .ok b =>
      match WriteFile lib fs m.keyPath b keyFilePerms with
      | (some err, fs1) => (.error ("failed to write key file: " ++ err), fs1)
      | (none, fs1) => (.ok priv, fs1)

/-- Go: `Manager.LoadOrGenerate`: `os.Stat` reports that the path does not
exist exactly when no file is there. -/
def Manager.LoadOrGenerate {K : Type} (lib : Lib K) (rnd : Nat) (m : Manager) (fs : FS) :
    Except String K × FS :=
  if (fs m.keyPath).isNone then m.generateAndSave lib rnd fs
  else (m.load lib fs, fs)

/-- A sample library for worked examples: a key is a number, generated from
the randomness itself, marshalled as the one-byte content holding it. -/
def sampleLib : Lib Nat :=
  { GenerateEd25519Key := fun rnd => .ok rnd
    MarshalPrivateKey := fun k => .ok [k]
    UnmarshalPrivateKey := fun b =>
      match b with
      | [k] => .ok k
      | _ => .error "malformed private key"
    Equals := fun a b => a == b
    WriteErr := fun _ _ => none }

/-- A disk without any file. -/
def emptyFS : FS := fun _ => none

end identity

namespace proxy

/-- Go: `time.Millisecond`, in nanoseconds. -/
def Millisecond : Int := 1000000

/-- The pool of the strategy-switch scenario: three nodes added in order,
their latencies set to 50 ms, 20 ms and 200 ms by `UpdateLatency`. -/
def scenarioPool : Pool :=
  ((((((NewPool FastestStrategy).Add "A" "/a").Add "B" "/b").Add "C" "/c").UpdateLatency "A"
    (50 * Millisecond)).UpdateLatency "B" (20 * Millisecond)).UpdateLatency "C"
    (200 * Millisecond)

end proxy





/-! ## Samples for the health loop and the discovery wire -/

namespace proxy

/-- A sample network in which no stream can be opened, so that every probe
fails; everything else is as in `sampleNet`. -/
def deadNet : Net :=
  { sampleNet with NewStream := fun _ _ _ => some "no route to peer" }

end proxy

namespace discovery

/-- A sample wire format for responses, for worked examples: the id followed
by the bracketed, comma-separated addresses. -/
def wireMarshal (r : Response) : Except String String :=
  .ok (r.ID ++ "[" ++ ",".intercalate r.Addrs ++ "]")

/-- The decoder of the sample wire format, on the two payloads that the
worked examples use. -/
def wireUnmarshal (payload : String) : Except String Response :=
  if payload = "N[]" then .ok { ID := "N", Addrs := [] }
  else if payload = "N[/ip4/127.0.0.1/tcp/4000/p2p/N]" then
    .ok { ID := "N", Addrs := ["/ip4/127.0.0.1/tcp/4000/p2p/N"] }
  else .error "invalid character"

/-- The sample libraries with the sample wire format for responses. -/
def wireDeps : Deps := { sampleDeps with MarshalResponse := wireMarshal }

end discovery



/-! ## Theorems -/

open proxy config discovery client

/-! ### Selection -/

/-- Claim C1, evaluated on the code: in the pool `[A (latency 0), B (latency 5)]`
all latencies are non-negative and `B` has a strictly positive one, yet the
scan of `SelectFastest` keeps the zero-latency `A` as `best`, so the call
falls back to the random pick for every draw, and for the draw `0` it returns
`A`, whose latency `0` is not the minimum positive latency `5`. -/
theorem SelectFastest_leading_zero_latency :
    (∀ c ∈ [Connection.mk "A" "/a" 0, Connection.mk "B" "/b" 5], 0 ≤ c.Latency) ∧
    (∃ c ∈ [Connection.mk "A" "/a" 0, Connection.mk "B" "/b" 5], 0 < c.Latency) ∧
    fastestScan none [Connection.mk "A" "/a" 0, Connection.mk "B" "/b" 5]
      = some (Connection.mk "A" "/a" 0) ∧
    (∀ r : Nat,
      Pool.SelectFastest ⟨[Connection.mk "A" "/a" 0, Connection.mk "B" "/b" 5], RandomStrategy, 0⟩ r
        = Pool.SelectRandom ⟨[Connection.mk "A" "/a" 0, Connection.mk "B" "/b" 5], RandomStrategy, 0⟩ r) ∧
    Pool.SelectFastest ⟨[Connection.mk "A" "/a" 0, Connection.mk "B" "/b" 5], RandomStrategy, 0⟩ 0
      = some (Connection.mk "A" "/a" 0) := by
  refine ⟨by decide, by decide, by decide, ?_, by decide⟩
  intro r
  have hscan : fastestScan none [Connection.mk "A" "/a" 0, Connection.mk "B" "/b" 5]
      = some (Connection.mk "A" "/a" 0) := by decide
  simp only [Pool.SelectFastest, Pool.SelectRandom, hscan]
  simp

/-- Claim C2, evaluated on the code: a configuration with
`routing.strategy = "round-robin"` is accepted by `ClientConfig.Validate`, but
the pool the supervisor builds from it has strategy `random`, not
`round-robin`, and `DialByStrategy` on any pool with that strategy dials
through `DialRandom`. The same holds for every routing section, since
`NewPool` does not use its argument. -/
theorem newPoolFor_ignores_configured_strategy :
    (ClientConfig.Validate (fun _ => Except.ok 0)
        { Key := "network.key",
          Server := some { ListenAddr := "127.0.0.1:1080", Auth := false, User := "", Pass := "" },
          Routing := some { Strategy := "round-robin", Health := "", Timeout := "" },
          Nodes := [{ ID := "n1", Addrs := ["/ip4/127.0.0.1/tcp/4001"], Relay := "" }],
          Discovery := some { Enabled := false, Address := "", Topic := "", Timeout := "",
                              User := "", Pass := "" },
          Log := some { Level := "info", Format := "text" } }).2 = none ∧
    (newPoolFor { Strategy := "round-robin", Health := "", Timeout := "" }).GetStrategy
      = RandomStrategy ∧
    (newPoolFor { Strategy := "round-robin", Health := "", Timeout := "" }).GetStrategy
      ≠ RoundRobinStrategy ∧
    (∀ routing : RoutingConfig, (newPoolFor routing).GetStrategy = RandomStrategy) ∧
    (∀ (net : Net) (d : proxy.Client) (r : Nat) (addr : String),
      d.Pool.GetStrategy
          = (newPoolFor { Strategy := "round-robin", Health := "", Timeout := "" }).GetStrategy →
        d.DialByStrategy net r addr = Run.ret (d.DialRandom net r addr)) := by
  refine ⟨by decide, rfl, by decide, fun _ => rfl, ?_⟩
  intro net d r addr h
  have h1 : d.Pool.GetStrategy = RandomStrategy := h
  simp [proxy.Client.DialByStrategy, h1]

/-- Claim C4: for every pool state and every random draw, `SelectRandom` and
`SelectFastest` return `nil` exactly when `Size() == 0`, and
`SelectRoundRobin` returns `nil` exactly when `Size() == 0`. -/
theorem select_nil_iff_size_zero (p : Pool) (r : Nat) :
    (p.SelectRandom r = none ↔ p.Size = 0) ∧
    (p.SelectFastest r = none ↔ p.Size = 0) ∧
    ((∃ q, p.SelectRoundRobin = Run.ret (none, q)) ↔ p.Size = 0) := by
  have hidx : p.conns.length ≠ 0 → p.conns[Intn r p.conns.length]? ≠ none := by
    intro hn h
    rw [List.getElem?_eq_none_iff] at h
    have : r % p.conns.length < p.conns.length := Nat.mod_lt _ (Nat.pos_of_ne_zero hn)
    unfold Intn at h
    omega
  refine ⟨?_, ?_, ?_⟩
  · unfold Pool.SelectRandom Pool.Size
    by_cases hn : p.conns.length = 0
    · simp [hn]
    · simp only [hn, if_false, iff_false]
      exact hidx hn
  · unfold Pool.SelectFastest Pool.Size
    by_cases hn : p.conns.length = 0
    · simp [hn]
    · simp only [hn, if_false, iff_false]
      cases hs : fastestScan none p.conns with
      | none => exact hidx hn
      | some best =>
        by_cases hb : best.Latency = 0
        · simp only [hb, if_true]
          exact hidx hn
        · simp [hb]
  · unfold Pool.SelectRoundRobin Pool.Size
    by_cases hn : p.conns.length = 0
    · simp [hn]
    · simp only [hn, if_false, iff_false]
      rintro ⟨q, hq⟩
      by_cases hi : Int.tmod p.rrIndex p.conns.length < 0
      · simp [hi] at hq
      · simp only [hi, if_false] at hq
        cases hc : p.conns[(Int.tmod p.rrIndex p.conns.length).toNat]? with
        | none => simp [hc] at hq
        | some c => simp [hc] at hq

/-! ### Connecting -/

/-- Claim C9, evaluated on the code: when the first descriptor of the list has
no relay and no address, `Client.Connect` does not return an error: it
panics, whatever the network does and whatever descriptors follow. -/
theorem Connect_panics_on_descriptor_without_addrs (net : Net) (p : proxy.Client)
    (id : String) (rest : List NodeConfig) :
    proxy.Client.Connect net p ({ ID := id, Addrs := [], Relay := "" } :: rest)
      = Run.panic "invalid memory address or nil pointer dereference" := by
  simp [proxy.Client.Connect, proxy.Client.connect, proxy.Client.dialAddrs]

/-- Claim C10, evaluated on the code: for a descriptor with empty relay and
an empty address list, `Client.connect` reaches `lastErr.Error()` with
`lastErr == nil` and panics instead of returning an error. -/
theorem connect_panics_on_empty_addrs (net : Net) (p : proxy.Client) (id : String) :
    proxy.Client.connect net p { ID := id, Addrs := [], Relay := "" }
      = Run.panic "invalid memory address or nil pointer dereference" := by
  simp [proxy.Client.connect, proxy.Client.dialAddrs]

/-! ### Health loop -/

theorem endpoints_setLatencyFirst (peerID : String) (latency : Int) (cs : List Connection) :
    endpoints (setLatencyFirst peerID latency cs) = endpoints cs := by
  induction cs with
  | nil => rfl
  | cons c cs ih =>
    unfold setLatencyFirst
    by_cases h : c.PeerID = peerID
    · simp [h, endpoints]
    · simp only [h, if_false]
      simp only [endpoints, List.map_cons] at ih ⊢
      rw [ih]

theorem probeOne_frame (net : Net) (cli : proxy.Client) (c : Connection) :
    endpoints (probeOne net cli c).Pool.conns = endpoints cli.Pool.conns ∧
    (probeOne net cli c).Pool.strategy = cli.Pool.strategy ∧
    (probeOne net cli c).Pool.rrIndex = cli.Pool.rrIndex := by
  unfold probeOne proxy.Client.Ping proxy.Host.NewStream
  cases h : net.NewStream cli.Host c.PeerID PingProtocolID with
  | none => simp [Pool.UpdateLatency, endpoints_setLatencyFirst]
  | some err => simp [Pool.UpdateLatency, endpoints_setLatencyFirst]

theorem probe_fold_frame (net : Net) (snapshot : List Connection) (cli : proxy.Client) :
    endpoints (snapshot.foldl (probeOne net) cli).Pool.conns = endpoints cli.Pool.conns ∧
    (snapshot.foldl (probeOne net) cli).Pool.strategy = cli.Pool.strategy ∧
    (snapshot.foldl (probeOne net) cli).Pool.rrIndex = cli.Pool.rrIndex := by
  induction snapshot generalizing cli with
  | nil => simp
  | cons c cs ih =>
    simp only [List.foldl_cons]
    obtain ⟨h1, h2, h3⟩ := ih (probeOne net cli c)
    obtain ⟨g1, g2, g3⟩ := probeOne_frame net cli c
    exact ⟨h1.trans g1, h2.trans g2, h3.trans g3⟩

/-- Claim C6: one health-loop tick, for every outcome of the individual
probes (every behaviour of the network), leaves the size of the pool, its
ordered sequence of (peer id, address) pairs, its strategy and its
round-robin cursor unchanged; only latencies may differ. -/
theorem healthTick_changes_only_latency (net : Net) (cli : proxy.Client) :
    (healthTick net cli).Pool.Size = cli.Pool.Size ∧
    endpoints (healthTick net cli).Pool.conns = endpoints cli.Pool.conns ∧
    (healthTick net cli).Pool.GetStrategy = cli.Pool.GetStrategy ∧
    (healthTick net cli).Pool.rrIndex = cli.Pool.rrIndex := by
  obtain ⟨h1, h2, h3⟩ := probe_fold_frame net cli.Pool.All cli
  refine ⟨?_, h1, h2, h3⟩
  have hlen := congrArg List.length h1
  simpa [endpoints, Pool.Size, healthTick] using hlen

/-! ### Merging static and discovered nodes -/

theorem peerCount_removeFirst (x y : String) (cs : List Connection) :
    peerCount x (removeFirst y cs) = if x = y then peerCount y cs - 1 else peerCount x cs := by
  induction cs with
  | nil => simp [removeFirst, peerCount]
  | cons c cs ih =>
    unfold removeFirst
    by_cases hc : c.PeerID = y
    · by_cases hx : x = y
      · subst hx
        simp [hc, peerCount, List.countP_cons]
      · have hyx : ¬ y = x := fun e => hx e.symm
        simp [hc, hx, hyx, peerCount, List.countP_cons]
    · simp only [hc, if_false]
      by_cases hx : x = y
      · subst hx
        simp only [if_true] at ih ⊢
        simp only [peerCount, List.countP_cons, hc, decide_False] at ih ⊢
        simpa using ih
      · simp only [hx, if_false] at ih ⊢
        simp only [peerCount, List.countP_cons] at ih ⊢
        rw [ih]

theorem peerCount_add (x y a : String) (cs : List Connection) :
    peerCount x (cs ++ [{ PeerID := y, Addr := a, Latency := 0 }])
      = peerCount x cs + if y = x then 1 else 0 := by
  simp [peerCount, List.countP_append, List.countP_cons]

theorem runOps_peerCount (ops : List Op) :
    ∀ p : Pool,
      (∀ (n : Nat) (x : String),
        removes x (ops.take n) ≤ peerCount x p.conns + adds x (ops.take n)) →
      ∀ x : String,
        peerCount x (runOps p ops).conns + removes x ops = peerCount x p.conns + adds x ops := by
  induction ops with
  | nil => intro p _ x; simp [runOps, removes, adds]
  | cons op ops ih =>
    intro p hpre x
    have hrun : runOps p (op :: ops) = runOps (applyOp p op) ops := rfl
    rw [hrun]
    cases op with
    | add y a =>
      have hstep : ∀ z, peerCount z (applyOp p (Op.add y a)).conns
          = peerCount z p.conns + if y = z then 1 else 0 := by
        intro z
        exact peerCount_add z y a p.conns
      have hpre1 : ∀ (n : Nat) (z : String), removes z (ops.take n)
          ≤ peerCount z (applyOp p (Op.add y a)).conns + adds z (ops.take n) := by
        intro n z
        have h := hpre (n + 1) z
        rw [hstep z]
        simp only [List.take_succ_cons, removes, adds, List.countP_cons, Op.isRemoveOf,
          Op.isAddOf] at h ⊢
        by_cases hyz : y = z <;> simp [hyz] at h ⊢ <;> omega
      have h := ih _ hpre1 x
      rw [hstep x] at h
      simp only [removes, adds, List.countP_cons, Op.isRemoveOf, Op.isAddOf] at h ⊢
      by_cases hyx : y = x <;> simp [hyx] at h ⊢ <;> omega
    | remove y =>
      have hpos : 1 ≤ peerCount y p.conns := by
        have h := hpre 1 y
        simpa [removes, adds, Op.isRemoveOf, Op.isAddOf] using h
      have hstep : ∀ z, peerCount z (applyOp p (Op.remove y)).conns
          = if z = y then peerCount y p.conns - 1 else peerCount z p.conns := by
        intro z
        exact peerCount_removeFirst z y p.conns
      have hpre1 : ∀ (n : Nat) (z : String), removes z (ops.take n)
          ≤ peerCount z (applyOp p (Op.remove y)).conns + adds z (ops.take n) := by
        intro n z
        have h := hpre (n + 1) z
        rw [hstep z]
        simp only [List.take_succ_cons, removes, adds, List.countP_cons, Op.isRemoveOf,
          Op.isAddOf] at h ⊢
        by_cases hzy : z = y
        · subst hzy
          simp at h ⊢
          omega
        · have hyz : ¬ y = z := fun e => hzy e.symm
          simp [hzy, hyz] at h ⊢
          omega
      have h := ih _ hpre1 x
      rw [hstep x] at h
      simp only [removes, adds, List.countP_cons, Op.isRemoveOf, Op.isAddOf] at h ⊢
      by_cases hxy : x = y
      · subst hxy
        simp at h ⊢
        omega
      · have hyx : ¬ y = x := fun e => hxy e.symm
        simp [hxy, hyx] at h ⊢
        omega

/-- Claim C5 as stated fails: the sequence `Remove(x), Add(x, _)` is balanced
(every peer is added exactly as many times as it is removed), but run on an
empty pool it leaves one connection, because `Remove` of an absent peer does
nothing. -/
theorem balanced_remove_before_add_leaves_one :
    balanced [Op.remove "x", Op.add "x" "/a"] ∧
    (runOps (NewPool RandomStrategy) [Op.remove "x", Op.add "x" "/a"]).Size = 1 := by
  refine ⟨?_, by decide⟩
  intro x
  by_cases hx : "x" = x <;> simp [adds, removes, List.countP_cons, Op.isAddOf, Op.isRemoveOf, hx]

/-- Claim C5, amended: starting from an empty pool, after a balanced sequence
of `Add` and `Remove` operations in which no peer has, at any point, been
removed more often than it has been added so far, `Size() == 0`. -/
theorem runOps_balanced_size_zero (s : PoolStrategy) (ops : List Op)
    (hbal : balanced ops)
    (hpre : ∀ (n : Nat) (x : String), removes x (ops.take n) ≤ adds x (ops.take n)) :
    (runOps (NewPool s) ops).Size = 0 := by
  have hcount : ∀ x, peerCount x (runOps (NewPool s) ops).conns = 0 := by
    intro x
    have h := runOps_peerCount ops (NewPool s)
      (by intro n z; simpa [NewPool, peerCount] using hpre n z) x
    have hb := hbal x
    simp only [NewPool, peerCount, List.countP_nil] at h
    simp only [peerCount, NewPool]
    omega
  unfold Pool.Size
  cases hc : (runOps (NewPool s) ops).conns with
  | nil => rfl
  | cons c cs =>
    have h := hcount c.PeerID
    rw [hc] at h
    simp [peerCount, List.countP_cons] at h

/-- Witness for C5 (amended): `Add(x), Add(y), Remove(x), Remove(y)` is
balanced, removes no peer before it was added, and empties the pool again. -/
theorem runOps_balanced_size_zero_witness :
    (runOps (NewPool RoundRobinStrategy)
      [Op.add "x" "/a", Op.add "y" "/b", Op.remove "x", Op.remove "y"]).Size = 0 :=
  runOps_balanced_size_zero RoundRobinStrategy
    [Op.add "x" "/a", Op.add "y" "/b", Op.remove "x", Op.remove "y"]
    (by
      intro x
      by_cases hx : "x" = x <;> by_cases hy : "y" = x <;>
        simp [adds, removes, List.countP_cons, Op.isAddOf, Op.isRemoveOf, hx, hy])
    (by
      intro n x
      have hn : n = 0 ∨ n = 1 ∨ n = 2 ∨ n = 3 ∨ 4 ≤ n := by omega
      rcases hn with h | h | h | h | h
      · subst h; simp [adds, removes]
      · subst h
        by_cases hx : "x" = x <;>
          simp [adds, removes, List.countP_cons, Op.isAddOf, Op.isRemoveOf, hx]
      · subst h
        by_cases hx : "x" = x <;> by_cases hy : "y" = x <;>
          simp [adds, removes, List.countP_cons, Op.isAddOf, Op.isRemoveOf, hx, hy]
      · subst h
        by_cases hx : "x" = x <;> by_cases hy : "y" = x <;>
          simp [adds, removes, List.countP_cons, Op.isAddOf, Op.isRemoveOf, hx, hy]
      · rw [List.take_of_length_le (by simpa using h)]
        by_cases hx : "x" = x <;> by_cases hy : "y" = x <;>
          simp [adds, removes, List.countP_cons, Op.isAddOf, Op.isRemoveOf, hx, hy])

/-! ### Round robin -/

theorem SelectRoundRobin_of_nonneg (p : Pool) (i : Nat) (hi : p.rrIndex = (i : Int))
    (hne : p.conns.length ≠ 0) :
    p.SelectRoundRobin
      = Run.ret (p.conns[i % p.conns.length]?,
          { p with rrIndex := (((i + 1) % p.conns.length : Nat) : Int) }) := by
  have hlt : i % p.conns.length < p.conns.length := Nat.mod_lt _ (Nat.pos_of_ne_zero hne)
  have hmod : Int.tmod (i : Int) (p.conns.length : Int) = ((i % p.conns.length : Nat) : Int) :=
    (Int.ofNat_tmod i p.conns.length).symm
  have hmod1 : Int.tmod ((i : Int) + 1) (p.conns.length : Int)
      = (((i + 1) % p.conns.length : Nat) : Int) := by
    have := (Int.ofNat_tmod (i + 1) p.conns.length).symm
    simpa using this
  unfold Pool.SelectRoundRobin
  simp only [hne, if_false, hi, hmod, hmod1]
  have hnn : ¬ (((i % p.conns.length : Nat) : Int) < 0) := by omega
  simp only [hnn, if_false, Int.toNat_ofNat]
  rw [List.getElem?_eq_getElem hlt]

theorem rrRun_eq (n : Nat) :
    ∀ (p : Pool) (i : Nat), p.rrIndex = (i : Int) → p.conns.length ≠ 0 →
      ∃ q : Pool, q.conns = p.conns ∧
        rrRun n p
          = Run.ret ((List.range n).map (fun j => p.conns[(i + j) % p.conns.length]?), q) := by
  induction n with
  | zero => intro p i _ _; exact ⟨p, rfl, rfl⟩
  | succ n ih =>
    intro p i hi hne
    obtain ⟨q, hq, hrun⟩ := ih
      { p with rrIndex := (((i + 1) % p.conns.length : Nat) : Int) }
      ((i + 1) % p.conns.length) rfl hne
    refine ⟨q, hq, ?_⟩
    unfold rrRun
    rw [SelectRoundRobin_of_nonneg p i hi hne]
    simp only [hrun, List.range_succ_eq_map, List.map_cons, List.map_map, Nat.add_zero]
    have hmap : List.map (fun j => p.conns[((i + 1) % p.conns.length + j) % p.conns.length]?)
          (List.range n)
        = List.map ((fun j => p.conns[(i + j) % p.conns.length]?) ∘ Nat.succ) (List.range n) := by
      apply List.map_congr_left
      intro j _
      simp only [Function.comp]
      rw [Nat.mod_add_mod]
      have : i + 1 + j = i + j.succ := by omega
      rw [this]
    rw [hmap]

theorem map_getElem?_range (l : List Connection) :
    (List.range l.length).map (fun j => l[j]?) = l.map some := by
  apply List.ext_getElem
  · simp
  · intro n h1 h2
    simp only [List.length_map, List.length_range] at h1
    simp [List.getElem?_eq_getElem h1]

theorem countP_eq_some_of_nodup (conns : List Connection) (hnd : conns.Nodup) (c : Connection)
    (hc : c ∈ conns) :
    (conns.map some).countP (fun o => decide (o = some c)) = 1 := by
  have h1 := List.count_eq_one_of_mem hnd hc
  rw [List.countP_map]
  rw [← h1, List.count]
  apply List.countP_congr
  intro x _
  simp

theorem count_round (conns : List Connection) (hnd : conns.Nodup) (c : Connection)
    (hc : c ∈ conns) (i : Nat) :
    ((List.range conns.length).map (fun j => conns[(i + j) % conns.length]?)).countP
      (fun o => decide (o = some c)) = 1 := by
  have hrot : (List.range conns.length).map (fun j => conns[(i + j) % conns.length]?)
      = (conns.rotate i).map some := by
    rw [← map_getElem?_range (conns.rotate i), List.length_rotate]
    apply List.map_congr_left
    intro j hj
    rw [List.getElem?_rotate (List.mem_range.1 hj), Nat.add_comm]
  rw [hrot]
  exact countP_eq_some_of_nodup (conns.rotate i)
    ((List.rotate_perm conns i).nodup_iff.2 hnd) c ((List.rotate_perm conns i).mem_iff.2 hc)

theorem count_rounds (conns : List Connection) (hnd : conns.Nodup) (c : Connection)
    (hc : c ∈ conns) (i k : Nat) :
    ((List.range (k * conns.length)).map (fun j => conns[(i + j) % conns.length]?)).countP
      (fun o => decide (o = some c)) = k := by
  induction k with
  | zero => simp
  | succ k ih =>
    rw [Nat.succ_mul, List.range_add, List.map_append, List.countP_append, ih, List.map_map]
    have hblock : (List.range conns.length).map
          ((fun j => conns[(i + j) % conns.length]?) ∘ fun x => k * conns.length + x)
        = (List.range conns.length).map (fun j => conns[(i + j) % conns.length]?) := by
      apply List.map_congr_left
      intro j _
      simp only [Function.comp]
      have : i + (k * conns.length + j) = (i + j) + k * conns.length := by omega
      rw [this, Nat.add_mul_mod_self_right]
    rw [hblock, count_round conns hnd c hc i]

theorem Reachable.rrIndex_nonneg {p : Pool} (h : Reachable p) : 0 ≤ p.rrIndex := by
  induction h with
  | new s => simp [NewPool]
  | add p peerID addr _ ih => exact ih
  | remove p peerID _ ih => exact ih
  | clear p _ ih => exact ih
  | updateLatency p peerID latency _ ih => exact ih
  | setStrategy p s _ ih => exact ih
  | selectRoundRobin p q c _ hsel ih =>
    unfold Pool.SelectRoundRobin at hsel
    by_cases hn : p.conns.length = 0
    · simp only [hn, if_true, Run.ret.injEq, Prod.mk.injEq] at hsel
      rw [← hsel.2]
      exact ih
    · simp only [hn, if_false] at hsel
      by_cases hi : Int.tmod p.rrIndex p.conns.length < 0
      · simp [hi] at hsel
      · simp only [hi, if_false] at hsel
        cases hc : p.conns[(Int.tmod p.rrIndex p.conns.length).toNat]? with
        | none => simp [hc] at hsel
        | some conn =>
          simp only [hc, Run.ret.injEq, Prod.mk.injEq] at hsel
          rw [← hsel.2]
          exact Int.tmod_nonneg _ (by omega)

/-- Claim C3: for every pool holding `N > 0` pairwise distinct connections,
with any non-negative cursor (every reachable cursor is non-negative, see
`Reachable.rrIndex_nonneg`), and every `k`, the `k * N` consecutive
`SelectRoundRobin` calls all return, leave the membership unchanged, and
return each connection of the pool exactly `k` times (the number of results
equal to that connection is `k`). -/
theorem roundRobin_fair (p : Pool) (k : Nat) (hN : 0 < p.Size) (hnd : p.conns.Nodup)
    (hcur : 0 ≤ p.rrIndex) :
    ∃ (out : List (Option Connection)) (q : Pool),
      rrRun (k * p.Size) p = Run.ret (out, q) ∧ q.conns = p.conns ∧
      out.length = k * p.Size ∧
      ∀ c ∈ p.conns, out.countP (fun o => decide (o = some c)) = k := by
  obtain ⟨i, hi⟩ := Int.eq_ofNat_of_zero_le hcur
  have hne : p.conns.length ≠ 0 := Nat.pos_iff_ne_zero.1 hN
  obtain ⟨q, hq, hrun⟩ := rrRun_eq (k * p.Size) p i hi hne
  refine ⟨_, q, hrun, hq, by simp, ?_⟩
  intro c hc
  exact count_rounds p.conns hnd c hc i k

/-- Witness for C3: a pool of three distinct connections whose cursor stands
at 2 returns each of them twice in six calls. -/
theorem roundRobin_fair_witness :
    ∃ (out : List (Option Connection)) (q : Pool),
      rrRun (2 * Pool.Size ⟨[⟨"A", "/a", 0⟩, ⟨"B", "/b", 7⟩, ⟨"C", "/c", 0⟩], RandomStrategy, 2⟩)
          ⟨[⟨"A", "/a", 0⟩, ⟨"B", "/b", 7⟩, ⟨"C", "/c", 0⟩], RandomStrategy, 2⟩
        = Run.ret (out, q) ∧
      q.conns = [⟨"A", "/a", 0⟩, ⟨"B", "/b", 7⟩, ⟨"C", "/c", 0⟩] ∧
      out.length = 2 * Pool.Size ⟨[⟨"A", "/a", 0⟩, ⟨"B", "/b", 7⟩, ⟨"C", "/c", 0⟩], RandomStrategy, 2⟩ ∧
      ∀ c ∈ [Connection.mk "A" "/a" 0, ⟨"B", "/b", 7⟩, ⟨"C", "/c", 0⟩], out.countP (fun o => decide (o = some c)) = 2 :=
  roundRobin_fair ⟨[⟨"A", "/a", 0⟩, ⟨"B", "/b", 7⟩, ⟨"C", "/c", 0⟩], RandomStrategy, 2⟩ 2
    (by decide) (by decide) (by decide)

/-! ### Discovery -/

theorem mapHas_iff (m : NodeMap) (key : String) :
    mapHas m key = true ↔ key ∈ m.map Prod.fst := by
  unfold mapHas
  simp only [List.any_eq_true, decide_eq_true_eq, List.mem_map]

theorem collectStep_complete (unmarshal : String → Except String Response) (m : NodeMap)
    (payload : String) (r : Response) (hdec : unmarshal payload = Except.ok r)
    (hid : r.ID ≠ "") (haddrs : r.Addrs ≠ []) :
    collectStep unmarshal m payload
      = Except.ok (if r.ID ∈ m.map Prod.fst then m
          else m ++ [(r.ID, { ID := r.ID, Addrs := r.Addrs, Relay := "" })]) := by
  have hlen : ¬ r.Addrs.length = 0 := fun h => haddrs (List.length_eq_zero.1 h)
  unfold collectStep
  simp only [hdec, hid, hlen, or_self, if_false, ne_eq, not_false_eq_true, if_true]
  by_cases hmem : r.ID ∈ m.map Prod.fst
  · have hhas : mapHas m r.ID = true := (mapHas_iff m r.ID).2 hmem
    simp [hhas, hmem]
  · have hhas : mapHas m r.ID = false := by
      cases h : mapHas m r.ID with
      | false => rfl
      | true => exact absurd ((mapHas_iff m r.ID).1 h) hmem
    simp [hhas, hmem, mapSet]

theorem collectLoop_spec (unmarshal : String → Except String Response) (resps : List Response) :
    ∀ (msgs : List String) (m : NodeMap),
      msgs.map unmarshal = resps.map Except.ok →
      (∀ r ∈ resps, r.ID ≠ "" ∧ r.Addrs ≠ []) →
      ∃ m1 : NodeMap, collectLoop unmarshal m msgs = Except.ok m1 ∧
        ((m.map Prod.fst).Nodup → (m1.map Prod.fst).Nodup) ∧
        (∀ id, id ∈ m1.map Prod.fst ↔ id ∈ m.map Prod.fst ∨ id ∈ resps.map (fun r => r.ID)) ∧
        (∀ e ∈ m1, e ∈ m ∨
          (e.1 ∉ m.map Prod.fst ∧
            resps.find? (fun r => decide (r.ID = e.1)) = some { ID := e.1, Addrs := e.2.Addrs } ∧
            e.2.ID = e.1 ∧ e.2.Relay = "")) := by
  induction resps with
  | nil =>
    intro msgs m hdec _
    have hnil : msgs = [] := by simpa using hdec
    subst hnil
    exact ⟨m, rfl, id, by simp, fun e he => Or.inl he⟩
  | cons r resps ih =>
    intro msgs m hdec hwf
    cases msgs with
    | nil => simp at hdec
    | cons payload rest =>
      simp only [List.map_cons, List.cons.injEq] at hdec
      obtain ⟨hhead, htail⟩ := hdec
      obtain ⟨hid, haddrs⟩ := hwf r (List.mem_cons_self _ _)
      have hstep := collectStep_complete unmarshal m payload r hhead hid haddrs
      unfold collectLoop
      rw [hstep]
      simp only
      by_cases hmem : r.ID ∈ m.map Prod.fst
      · simp only [hmem, if_true]
        obtain ⟨m1, hrun, hnd, hkeys, hent⟩ :=
          ih rest m htail (fun x hx => hwf x (List.mem_cons_of_mem _ hx))
        refine ⟨m1, hrun, hnd, ?_, ?_⟩
        · intro id
          rw [hkeys id]
          simp only [List.map_cons, List.mem_cons]
          constructor
          · rintro (h | h)
            · exact Or.inl h
            · exact Or.inr (Or.inr h)
          · rintro (h | h | h)
            · exact Or.inl h
            · exact Or.inl (h ▸ hmem)
            · exact Or.inr h
        · intro e he
          rcases hent e he with h | ⟨h1, h2, h3, h4⟩
          · exact Or.inl h
          · refine Or.inr ⟨h1, ?_, h3, h4⟩
            have hne : ¬ r.ID = e.1 := fun heq => h1 (heq ▸ hmem)
            simp only [List.find?_cons, hne, decide_False]
            exact h2
      · simp only [hmem, if_false]
        obtain ⟨m1, hrun, hnd, hkeys, hent⟩ :=
          ih rest (m ++ [(r.ID, { ID := r.ID, Addrs := r.Addrs, Relay := "" })]) htail
            (fun x hx => hwf x (List.mem_cons_of_mem _ hx))
        refine ⟨m1, hrun, ?_, ?_, ?_⟩
        · intro hm
          apply hnd
          rw [List.map_append, List.nodup_append]
          refine ⟨hm, by simp, ?_⟩
          intro a ha hb
          simp only [List.map_cons, List.map_nil, List.mem_singleton] at hb
          exact hmem (hb ▸ ha)
        · intro id
          rw [hkeys id]
          simp only [List.map_append, List.map_cons, List.map_nil, List.mem_append,
            List.mem_singleton, List.mem_cons, List.not_mem_nil, or_false]
          constructor
          · rintro ((h | h) | h)
            · exact Or.inl h
            · exact Or.inr (Or.inl h)
            · exact Or.inr (Or.inr h)
          · rintro (h | h | h)
            · exact Or.inl (Or.inl h)
            · exact Or.inl (Or.inr h)
            · exact Or.inr h
        · intro e he
          rcases hent e he with h | ⟨h1, h2, h3, h4⟩
          · rcases List.mem_append.1 h with h | h
            · exact Or.inl h
            · have he : e = (r.ID, { ID := r.ID, Addrs := r.Addrs, Relay := "" }) := by
                simpa using h
              subst he
              exact Or.inr ⟨hmem, by simp [List.find?_cons], rfl, rfl⟩
          · have hnot : e.1 ∉ m.map Prod.fst ∧ ¬ r.ID = e.1 := by
              simp only [List.map_append, List.map_cons, List.map_nil, List.mem_append,
                List.mem_singleton, not_or] at h1
              exact ⟨h1.1, fun heq => h1.2 heq.symm⟩
            refine Or.inr ⟨hnot.1, ?_, h3, h4⟩
            simp only [List.find?_cons, hnot.2, decide_False]
            exact h2

theorem mapRange_perm (order : Nat) (m : NodeMap) :
    ∃ l : NodeMap, l.Perm m ∧ mapRange order m = l.map Prod.snd := by
  unfold mapRange
  rw [List.getD_eq_getElem?_getD]
  cases h : m.permutations[order % m.permutations.length]? with
  | none => exact ⟨m, List.Perm.refl m, rfl⟩
  | some l =>
    refine ⟨l, ?_, rfl⟩
    exact List.mem_permutations.1 (List.getElem?_mem h)

/-- Claim C7: when the payloads received before the loop is left decode, in
order, to the responses `resps`, all of them complete (non-empty id, non-empty
addrs), then `collectDiscover` returns a list, for every iteration order of
the map, whose ids are pairwise distinct, whose ids are exactly the ids that
occur in `resps`, and in which each node carries the addrs of the first
response with its id. -/
theorem collectDiscover_dedup_first_wins (unmarshal : String → Except String Response)
    (order : Nat) (msgs : List String) (resps : List Response)
    (hdec : msgs.map unmarshal = resps.map Except.ok)
    (hwf : ∀ r ∈ resps, r.ID ≠ "" ∧ r.Addrs ≠ []) :
    ∃ nodes : List NodeConfig,
      collectDiscover unmarshal order msgs = Except.ok nodes ∧
      (nodes.map (fun n => n.ID)).Nodup ∧
      (∀ id, id ∈ nodes.map (fun n => n.ID) ↔ id ∈ resps.map (fun r => r.ID)) ∧
      (∀ n ∈ nodes,
        resps.find? (fun r => decide (r.ID = n.ID)) = some { ID := n.ID, Addrs := n.Addrs }) := by
  obtain ⟨m1, hrun, hnd, hkeys, hent⟩ := collectLoop_spec unmarshal resps msgs [] hdec hwf
  obtain ⟨l, hperm, hrange⟩ := mapRange_perm order m1
  have hentry : ∀ e ∈ l,
      resps.find? (fun r => decide (r.ID = e.1)) = some { ID := e.1, Addrs := e.2.Addrs } ∧
      e.2.ID = e.1 := by
    intro e he
    rcases hent e (hperm.mem_iff.1 he) with h | ⟨_, h2, h3, _⟩
    · simp at h
    · exact ⟨h2, h3⟩
  have hids : (l.map Prod.snd).map (fun n => n.ID) = l.map Prod.fst := by
    rw [List.map_map]
    apply List.map_congr_left
    intro e he
    exact (hentry e he).2
  refine ⟨l.map Prod.snd, ?_, ?_, ?_, ?_⟩
  · unfold collectDiscover
    rw [hrun]
    simp only [hrange]
  · rw [hids]
    exact (hperm.map Prod.fst).nodup_iff.2 (hnd List.nodup_nil)
  · intro id
    rw [hids, (hperm.map Prod.fst).mem_iff, hkeys id]
    simp
  · intro n hn
    obtain ⟨e, he, rfl⟩ := List.mem_map.1 hn
    obtain ⟨h1, h2⟩ := hentry e he
    rw [h2]
    exact h1

/-- Witness for C7: the payloads `m1, m2, m3` decode to responses of `A`, `B`
and `A` again; the result has the ids `A` and `B` once each, and `A` carries
the addrs of its first response. -/
theorem collectDiscover_dedup_first_wins_witness :
    ∃ nodes : List NodeConfig,
      collectDiscover sampleUnmarshal 1 ["m1", "m2", "m3"] = Except.ok nodes ∧
      (nodes.map (fun n => n.ID)).Nodup ∧
      (∀ id, id ∈ nodes.map (fun n => n.ID) ↔
        id ∈ [Response.mk "A" ["/a1"], ⟨"B", ["/b"]⟩, ⟨"A", ["/a2"]⟩].map (fun r => r.ID)) ∧
      (∀ n ∈ nodes,
        [Response.mk "A" ["/a1"], ⟨"B", ["/b"]⟩, ⟨"A", ["/a2"]⟩].find?
            (fun r => decide (r.ID = n.ID)) = some { ID := n.ID, Addrs := n.Addrs }) :=
  collectDiscover_dedup_first_wins sampleUnmarshal 1 ["m1", "m2", "m3"]
    [⟨"A", ["/a1"]⟩, ⟨"B", ["/b"]⟩, ⟨"A", ["/a2"]⟩] (by simp [sampleUnmarshal]) (by decide)

/-! ### Connecting over direct addresses -/

theorem dialAddrs_first_success (net : Net) (addrs : List String) :
    ∀ (lastErr : Option String) (p : proxy.Client),
      failRun net p.Host addrs = none →
      ∃ (pre post : List String) (a : String) (h1 h2 : Host) (info : AddrInfo)
          (e : Option String),
        addrs = pre ++ a :: post ∧
        failRun net p.Host pre = some h1 ∧
        tryAddr net h1 a = (Except.ok info, h2) ∧
        h2.connects = h1.connects ++ [info] ∧
        h2.streams = p.Host.streams ∧
        proxy.Client.dialAddrs net addrs lastErr p
          = (true, e, { Host := h2, Pool := p.Pool.Add info.ID a }) := by
  induction addrs with
  | nil => intro lastErr p h; simp [failRun] at h
  | cons addr rest ih =>
    intro lastErr p hrun
    unfold failRun at hrun
    cases hma : net.NewMultiaddr addr with
    | error err =>
      have htry : tryAddr net p.Host addr = (Except.error err, p.Host) := by
        simp [tryAddr, hma]
      rw [htry] at hrun
      obtain ⟨pre, post, a, h1, h2, info, e, hsplit, hpre, ha, hlog, hstr, hres⟩ :=
        ih (some err) p hrun
      refine ⟨addr :: pre, post, a, h1, h2, info, e, by simp [hsplit], ?_, ha, hlog, hstr, ?_⟩
      · simp only [failRun, htry]
        exact hpre
      · simp only [proxy.Client.dialAddrs, hma]
        exact hres
    | ok nodeMA =>
      cases hinfo : net.AddrInfoFromP2pAddr nodeMA with
      | error err =>
        have htry : tryAddr net p.Host addr = (Except.error err, p.Host) := by
          simp [tryAddr, hma, hinfo]
        rw [htry] at hrun
        obtain ⟨pre, post, a, h1, h2, info, e, hsplit, hpre, ha, hlog, hstr, hres⟩ :=
          ih (some err) p hrun
        refine ⟨addr :: pre, post, a, h1, h2, info, e, by simp [hsplit], ?_, ha, hlog, hstr, ?_⟩
        · simp only [failRun, htry]
          exact hpre
        · simp only [proxy.Client.dialAddrs, hma, hinfo]
          exact hres
      | ok nodeInfo =>
        cases hconn : net.Connect p.Host nodeInfo with
        | some err =>
          have htry : tryAddr net p.Host addr
              = (Except.error err, { p.Host with connects := p.Host.connects ++ [nodeInfo] }) := by
            simp [tryAddr, hma, hinfo, Host.Connect, hconn]
          rw [htry] at hrun
          obtain ⟨pre, post, a, h1, h2, info, e, hsplit, hpre, ha, hlog, hstr, hres⟩ :=
            ih (some err) { p with Host := { p.Host with connects := p.Host.connects ++ [nodeInfo] } }
              hrun
          refine ⟨addr :: pre, post, a, h1, h2, info, e, by simp [hsplit], ?_, ha, hlog, hstr, ?_⟩
          · simp only [failRun, htry]
            exact hpre
          · simp only [proxy.Client.dialAddrs, hma, hinfo, Host.Connect, hconn]
            exact hres
        | none =>
          have htry : tryAddr net p.Host addr
              = (Except.ok nodeInfo, { p.Host with connects := p.Host.connects ++ [nodeInfo] }) := by
            simp [tryAddr, hma, hinfo, Host.Connect, hconn]
          refine ⟨[], rest, addr, p.Host, _, nodeInfo, lastErr, rfl, rfl, htry, rfl, rfl, ?_⟩
          simp only [proxy.Client.dialAddrs, hma, hinfo, Host.Connect, hconn]

/-- Claim C11: for a descriptor with empty relay, when some address of
`addrs` parses and dials successfully in the course of the loop, there is a
first such address `a` (all addresses before it fail, `a` succeeds in the host
state they leave); `Client.connect` returns `nil`, the pool gains exactly one
connection, with address `a` and latency 0, and the last dial the host has
seen is the one of `a`, so no address after `a` is dialled. -/
theorem connect_first_address_wins (net : Net) (p : proxy.Client) (node : NodeConfig)
    (hrelay : node.Relay = "") (hsome : failRun net p.Host node.Addrs = none) :
    ∃ (pre post : List String) (a : String) (h1 h2 : Host) (info : AddrInfo),
      node.Addrs = pre ++ a :: post ∧
      failRun net p.Host pre = some h1 ∧
      tryAddr net h1 a = (Except.ok info, h2) ∧
      h2.connects = h1.connects ++ [info] ∧
      h2.streams = p.Host.streams ∧
      p.connect net node = Run.ret (none, { Host := h2, Pool := p.Pool.Add info.ID a }) ∧
      (p.Pool.Add info.ID a).conns
        = p.Pool.conns ++ [{ PeerID := info.ID, Addr := a, Latency := 0 }] := by
  obtain ⟨pre, post, a, h1, h2, info, e, hsplit, hpre, ha, hlog, hstr, hres⟩ :=
    dialAddrs_first_success net node.Addrs none p hsome
  refine ⟨pre, post, a, h1, h2, info, hsplit, hpre, ha, hlog, hstr, ?_, rfl⟩
  unfold proxy.Client.connect
  simp [hrelay, hres]

/-- Witness for C11: in the sample network the descriptor's first address
does not parse, the second cannot be dialled, the third succeeds. -/
theorem connect_first_address_wins_witness :
    ∃ (pre post : List String) (a : String) (h1 h2 : Host) (info : AddrInfo),
      sampleNode.Addrs = pre ++ a :: post ∧
      failRun sampleNet freshClient.Host pre = some h1 ∧
      tryAddr sampleNet h1 a = (Except.ok info, h2) ∧
      h2.connects = h1.connects ++ [info] ∧
      h2.streams = freshClient.Host.streams ∧
      freshClient.connect sampleNet sampleNode
        = Run.ret (none, { Host := h2, Pool := freshClient.Pool.Add info.ID a }) ∧
      (freshClient.Pool.Add info.ID a).conns
        = freshClient.Pool.conns ++ [{ PeerID := info.ID, Addr := a, Latency := 0 }] :=
  connect_first_address_wins sampleNet freshClient sampleNode rfl (by decide)

/-! ### Configuration and start-up -/

theorem Validate_rejects_no_nodes_no_discovery (parseDuration : String → Except String Int)
    (cfg : ClientConfig) (hnodes : cfg.Nodes = [])
    (hdisc : cfg.Discovery = none ∨ ∃ d, cfg.Discovery = some d ∧ d.Enabled = false) :
    ∃ err, (cfg.Validate parseDuration).2 = some err := by
  rcases hdisc with hd | ⟨d, hd, hen⟩
  · simp only [ClientConfig.Validate, hd]
    repeat' split
    all_goals simp
  · have hdv : d.Validate = none := by simp [DiscoveryConfig.Validate, hen]
    simp only [ClientConfig.Validate, hd, hnodes, hdv, hen]
    repeat' split
    all_goals simp_all

/-- Claim C12, evaluated on the code: the sample configuration without its
static node, discovery disabled, is rejected by `ClientConfig.Validate`, as is
every configuration with no nodes and discovery absent or disabled. But
`Connect`, called as the shipped command calls it (the package logger not yet
set), does not return that error: it panics in the log call that reports the
validation failure, for every such configuration. Only when a logger was
installed before the call does `Connect` return the error, having taken no
step. -/
theorem Connect_panics_reporting_rejected_config :
    (({ sampleConfig with Nodes := [] } : ClientConfig).Validate sampleSys.parseDuration).2
      = some "at least one static node or discovery must be enabled" ∧
    Connect sampleSys false { sampleConfig with Nodes := [] }
      = Run.panic "invalid memory address or nil pointer dereference" ∧
    Connect sampleSys true { sampleConfig with Nodes := [] }
      = Run.ret (some ("invalid configuration: "
          ++ "at least one static node or discovery must be enabled"), []) ∧
    (∀ (sys : Sys) (cfg : ClientConfig), cfg.Nodes = [] →
      (cfg.Discovery = none ∨ ∃ d, cfg.Discovery = some d ∧ d.Enabled = false) →
      (∃ err, (cfg.Validate sys.parseDuration).2 = some err ∧
        Connect sys true cfg = Run.ret (some ("invalid configuration: " ++ err), [])) ∧
      Connect sys false cfg = Run.panic "invalid memory address or nil pointer dereference") := by
  have hgen : ∀ (sys : Sys) (cfg : ClientConfig), cfg.Nodes = [] →
      (cfg.Discovery = none ∨ ∃ d, cfg.Discovery = some d ∧ d.Enabled = false) →
      (∃ err, (cfg.Validate sys.parseDuration).2 = some err ∧
        Connect sys true cfg = Run.ret (some ("invalid configuration: " ++ err), [])) ∧
      Connect sys false cfg
        = Run.panic "invalid memory address or nil pointer dereference" := by
    intro sys cfg hnodes hdisc
    obtain ⟨err, herr⟩ :=
      Validate_rejects_no_nodes_no_discovery sys.parseDuration cfg hnodes hdisc
    unfold Connect
    cases hv : cfg.Validate sys.parseDuration with
    | mk cfg1 e =>
      rw [hv] at herr
      simp only at herr
      subst herr
      exact ⟨⟨err, rfl, rfl⟩, rfl⟩
  have hval : (({ sampleConfig with Nodes := [] } : ClientConfig).Validate
      sampleSys.parseDuration).2
        = some "at least one static node or discovery must be enabled" := by
    simp [ClientConfig.Validate, sampleConfig, sampleSys, ServerConfig.Validate,
      RoutingConfig.Validate, DiscoveryConfig.Validate]
  obtain ⟨⟨err, herr, hret⟩, hpanic⟩ :=
    hgen sampleSys { sampleConfig with Nodes := [] } rfl (Or.inr ⟨_, rfl, rfl⟩)
  refine ⟨hval, hpanic, ?_, hgen⟩
  rw [hval] at herr
  rw [hret, ← Option.some.inj herr]

/-- Claim C13, evaluated on the code: a configuration whose only static node
has an id but neither an address nor a relay is accepted by
`ClientConfig.Validate`, whatever `time.ParseDuration` does, although
`NodeConfig.Validate` rejects that node: the nodes are the one section that
`ClientConfig.Validate` does not validate. -/
theorem Validate_accepts_node_without_addrs (parseDuration : String → Except String Int) :
    (({ sampleConfig with Nodes := [{ ID := "x", Addrs := [], Relay := "" }] } : ClientConfig).Validate
        parseDuration).2 = none ∧
    NodeConfig.Validate { ID := "x", Addrs := [], Relay := "" }
      = some "at least one address or relay is required" := by
  refine ⟨?_, by decide⟩
  simp [ClientConfig.Validate, sampleConfig, ServerConfig.Validate, RoutingConfig.Validate,
    DiscoveryConfig.Validate, LogConfig.Validate]

/-! ### Dialling through the pool -/

/-- Claim C14 as stated fails: on an empty pool whose strategy is `fastest`
(the name used by the configuration, which is none of the three strategy
constants), `DialByStrategy` returns the error `unknown dialing strategy`,
not `no exit nodes available`. -/
theorem DialByStrategy_empty_pool_unknown_strategy :
    (freshClient.Pool.SetStrategy "fastest").Size = 0 ∧
    proxy.Client.DialByStrategy sampleNet
        { freshClient with Pool := freshClient.Pool.SetStrategy "fastest" } 0 "example.org:80"
      = Run.ret (Except.error "unknown dialing strategy",
          { freshClient with Pool := freshClient.Pool.SetStrategy "fastest" }) := by
  refine ⟨by decide, ?_⟩
  simp [proxy.Client.DialByStrategy, Pool.GetStrategy, Pool.SetStrategy, freshClient, NewClient,
    NewPool, RandomStrategy, FastestStrategy, RoundRobinStrategy]

/-- Claim C14, amended: for every empty pool, `DialByStrategy` returns an
error and leaves the dialer as it was, so no stream is opened; the error is
`no exit nodes available` when the current strategy is one of the three
strategy constants, and `unknown dialing strategy` for every other value. -/
theorem DialByStrategy_empty_pool (net : Net) (d : proxy.Client) (r : Nat) (addr : String)
    (hempty : d.Pool.Size = 0) :
    ((d.Pool.GetStrategy = RandomStrategy ∨ d.Pool.GetStrategy = FastestStrategy ∨
        d.Pool.GetStrategy = RoundRobinStrategy) →
      d.DialByStrategy net r addr = Run.ret (Except.error "no exit nodes available", d)) ∧
    (¬ (d.Pool.GetStrategy = RandomStrategy ∨ d.Pool.GetStrategy = FastestStrategy ∨
        d.Pool.GetStrategy = RoundRobinStrategy) →
      d.DialByStrategy net r addr = Run.ret (Except.error "unknown dialing strategy", d)) := by
  have hlen : d.Pool.conns.length = 0 := hempty
  have hrand : d.DialRandom net r addr = (Except.error "no exit nodes available", d) := by
    simp [proxy.Client.DialRandom, Pool.SelectRandom, hlen]
  have hfast : d.DialFastest net r addr = (Except.error "no exit nodes available", d) := by
    simp [proxy.Client.DialFastest, Pool.SelectFastest, hlen]
  have hrr : d.DialRoundRobin net addr = Run.ret (Except.error "no exit nodes available", d) := by
    simp [proxy.Client.DialRoundRobin, Pool.SelectRoundRobin, hlen]
  constructor
  · intro hknown
    unfold proxy.Client.DialByStrategy
    by_cases h1 : d.Pool.GetStrategy = RandomStrategy
    · rw [if_pos h1, hrand]
    · by_cases h2 : d.Pool.GetStrategy = FastestStrategy
      · rw [if_neg h1, if_pos h2, hfast]
      · have h3 : d.Pool.GetStrategy = RoundRobinStrategy := by tauto
        rw [if_neg h1, if_neg h2, if_pos h3, hrr]
  · intro hunknown
    unfold proxy.Client.DialByStrategy
    have h1 : ¬ d.Pool.GetStrategy = RandomStrategy := fun h => hunknown (Or.inl h)
    have h2 : ¬ d.Pool.GetStrategy = FastestStrategy := fun h => hunknown (Or.inr (Or.inl h))
    have h3 : ¬ d.Pool.GetStrategy = RoundRobinStrategy := fun h => hunknown (Or.inr (Or.inr h))
    simp [h1, h2, h3]

/-- Witness for C14 (amended): the fresh dialer has an empty pool with
strategy `random`. -/
theorem DialByStrategy_empty_pool_witness :
    proxy.Client.DialByStrategy sampleNet freshClient 3 "example.org:80"
      = Run.ret (Except.error "no exit nodes available", freshClient) :=
  (DialByStrategy_empty_pool sampleNet freshClient 3 "example.org:80" (by decide)).1
    (Or.inl (by decide))

/-- Claim C15: for every pool state and random draw, `SelectByStrategy(s)`
has the result and the effect on the pool of `SelectRandom` when `s` is
`RandomStrategy`, of `SelectFastest` when `s` is `FastestStrategy`, of
`SelectRoundRobin` when `s` is `RoundRobinStrategy`, and of `SelectRandom` for
every other value of `s`. -/
theorem SelectByStrategy_dispatch (p : Pool) (r : Nat) :
    p.SelectByStrategy RandomStrategy r = Run.ret (p.SelectRandom r, p) ∧
    p.SelectByStrategy FastestStrategy r = Run.ret (p.SelectFastest r, p) ∧
    p.SelectByStrategy RoundRobinStrategy r = p.SelectRoundRobin ∧
    ∀ s : PoolStrategy, s ≠ RandomStrategy → s ≠ FastestStrategy → s ≠ RoundRobinStrategy →
      p.SelectByStrategy s r = Run.ret (p.SelectRandom r, p) := by
  refine ⟨?_, ?_, ?_, ?_⟩
  · simp [Pool.SelectByStrategy]
  · have h : ¬ FastestStrategy = RandomStrategy := by decide
    simp [Pool.SelectByStrategy, h]
  · have h1 : ¬ RoundRobinStrategy = RandomStrategy := by decide
    have h2 : ¬ RoundRobinStrategy = FastestStrategy := by decide
    simp [Pool.SelectByStrategy, h1, h2]
  · intro s h1 h2 h3
    simp [Pool.SelectByStrategy, h1, h2, h3]

/-- Witness for C15: on a pool of two connections with the cursor at 1, the
strategy value `fastest`, which is none of the three constants, selects like
`SelectRandom`. -/
theorem SelectByStrategy_dispatch_witness :
    Pool.SelectByStrategy ⟨[⟨"A", "/a", 30⟩, ⟨"B", "/b", 20⟩], RoundRobinStrategy, 1⟩ "fastest" 4
      = Run.ret
          (Pool.SelectRandom ⟨[⟨"A", "/a", 30⟩, ⟨"B", "/b", 20⟩], RoundRobinStrategy, 1⟩ 4,
            ⟨[⟨"A", "/a", 30⟩, ⟨"B", "/b", 20⟩], RoundRobinStrategy, 1⟩) :=
  (SelectByStrategy_dispatch ⟨[⟨"A", "/a", 30⟩, ⟨"B", "/b", 20⟩], RoundRobinStrategy, 1⟩ 4).2.2.2
    "fastest" (by decide) (by decide) (by decide)

/-! ### Discovery: malformed responses -/

theorem collectStep_malformed (unmarshal : String → Except String Response) (m : NodeMap)
    (payload : String) (hbad : malformed unmarshal payload = true) :
    ∃ err, collectStep unmarshal m payload = Except.error err := by
  unfold malformed at hbad
  unfold collectStep
  cases h : unmarshal payload with
  | error e => exact ⟨_, rfl⟩
  | ok resp =>
    rw [h] at hbad
    simp only [Bool.or_eq_true, decide_eq_true_eq] at hbad
    simp only [hbad, if_true]
    exact ⟨_, rfl⟩

theorem collectLoop_malformed (unmarshal : String → Except String Response)
    (msgs : List String) :
    ∀ m : NodeMap, (∃ payload ∈ msgs, malformed unmarshal payload = true) →
      ∃ err, collectLoop unmarshal m msgs = Except.error err := by
  induction msgs with
  | nil => intro m h; simp at h
  | cons payload rest ih =>
    intro m hbad
    unfold collectLoop
    cases hstep : collectStep unmarshal m payload with
    | error err => exact ⟨err, rfl⟩
    | ok m1 =>
      simp only
      apply ih m1
      obtain ⟨x, hx, hxbad⟩ := hbad
      rcases List.mem_cons.1 hx with hhead | htail
      · subst hhead
        obtain ⟨err, herr⟩ := collectStep_malformed unmarshal m x hxbad
        rw [herr] at hstep
        cases hstep
      · exact ⟨x, htail, hxbad⟩

/-- Claim C16: when any payload received by `collectDiscover` before the loop
is left is not valid JSON, or decodes to a response with an empty id or an
empty addrs list, `collectDiscover` returns an error and no nodes, whatever
was received before or after it. -/
theorem collectDiscover_malformed_aborts (unmarshal : String → Except String Response)
    (order : Nat) (msgs : List String)
    (hbad : ∃ payload ∈ msgs, malformed unmarshal payload = true) :
    ∃ err, collectDiscover unmarshal order msgs = Except.error err := by
  obtain ⟨err, herr⟩ := collectLoop_malformed unmarshal msgs [] hbad
  exact ⟨err, by simp [collectDiscover, herr]⟩

/-- Witness for C16: a valid response of `A`, then a payload that is not
JSON, then another valid response. -/
theorem collectDiscover_malformed_aborts_witness :
    ∃ err, collectDiscover sampleUnmarshal 0 ["m1", "not json", "m2"] = Except.error err :=
  collectDiscover_malformed_aborts sampleUnmarshal 0 ["m1", "not json", "m2"]
    ⟨"not json", by decide, by decide⟩

/-! ### Discovery: server side -/

/-- Claim C17: given that the empty text is not JSON and that the response
of the host can be marshalled, `process` publishes exactly when the trimmed
payload decodes to a request with a non-empty reply field and an action that
is empty or `discover`: in that case it publishes exactly one message, the
marshalled response of the host, on the reply channel of the request; in
every other case it publishes nothing and returns no error. -/
theorem process_publishes_iff (deps : Deps) (s : Service) (bus : Bus) (payload : String)
    (hempty : ∀ req, deps.UnmarshalRequest "" ≠ Except.ok req)
    (hmarshal : ∃ b, deps.MarshalResponse s.response = Except.ok b) :
    (asksDiscovery deps payload = true →
      ∃ b, deps.MarshalResponse s.response = Except.ok b ∧
        (s.process deps bus payload).2 = bus ++ [(replyOf deps payload, b)]) ∧
    (asksDiscovery deps payload = false → s.process deps bus payload = (none, bus)) ∧
    ((∃ entry, (s.process deps bus payload).2 = bus ++ [entry]) ↔
      asksDiscovery deps payload = true) := by
  obtain ⟨b, hb⟩ := hmarshal
  have hyes : asksDiscovery deps payload = true →
      (s.process deps bus payload).2 = bus ++ [(replyOf deps payload, b)] := by
    intro hask
    unfold asksDiscovery at hask
    unfold Service.process replyOf
    cases hreq : deps.UnmarshalRequest (deps.TrimSpace payload) with
    | error e => rw [hreq] at hask; cases hask
    | ok req =>
      rw [hreq] at hask
      simp only [Bool.and_eq_true, Bool.or_eq_true, decide_eq_true_eq] at hask
      obtain ⟨hreply, haction⟩ := hask
      have hne : ¬ deps.TrimSpace payload = "" := by
        intro h
        rw [h] at hreq
        exact hempty req hreq
      have hact : ¬ (req.Action ≠ "" ∧ req.Action ≠ "discover") := by
        rintro ⟨h1, h2⟩
        rcases haction with h | h
        · exact h1 h
        · exact h2 h
      simp only [hne, if_false, hreq, hreply, hact, Service.publish, hb]
      cases deps.Publish bus req.Replay b <;> rfl
  have hno : asksDiscovery deps payload = false → s.process deps bus payload = (none, bus) := by
    intro hask
    unfold asksDiscovery at hask
    unfold Service.process
    by_cases hne : deps.TrimSpace payload = ""
    · simp [hne]
    · simp only [hne, if_false]
      cases hreq : deps.UnmarshalRequest (deps.TrimSpace payload) with
      | error e => rfl
      | ok req =>
        rw [hreq] at hask
        simp only [Bool.and_eq_false_iff, Bool.or_eq_false_iff, decide_eq_false_iff_not,
          not_not] at hask
        by_cases hreply : req.Replay = ""
        · simp [hreply]
        · have hact : req.Action ≠ "" ∧ req.Action ≠ "discover" := by
            rcases hask with h | h
            · exact absurd h hreply
            · exact h
          simp only [hreply, if_false]
          rw [if_pos hact]
  refine ⟨fun h => ⟨b, hb, hyes h⟩, hno, ?_⟩
  constructor
  · rintro ⟨entry, hentry⟩
    cases hask : asksDiscovery deps payload with
    | true => rfl
    | false =>
      rw [hno hask] at hentry
      simp at hentry
  · intro h
    exact ⟨_, hyes h⟩

/-- Witness for C17: with the sample libraries, a padded discover request is
answered on its reply channel. -/
theorem process_publishes_iff_witness :
    (asksDiscovery sampleDeps "  discover-request\n" = true →
      ∃ b, sampleDeps.MarshalResponse
            (Service.response ⟨"bethrou", "N", ["/ip4/127.0.0.1/tcp/4000"]⟩) = Except.ok b ∧
        (Service.process sampleDeps ⟨"bethrou", "N", ["/ip4/127.0.0.1/tcp/4000"]⟩ []
            "  discover-request\n").2
          = [] ++ [(replyOf sampleDeps "  discover-request\n", b)]) ∧
    (asksDiscovery sampleDeps "  discover-request\n" = false →
      Service.process sampleDeps ⟨"bethrou", "N", ["/ip4/127.0.0.1/tcp/4000"]⟩ []
        "  discover-request\n" = (none, [])) ∧
    ((∃ entry, (Service.process sampleDeps ⟨"bethrou", "N", ["/ip4/127.0.0.1/tcp/4000"]⟩ []
          "  discover-request\n").2 = [] ++ [entry]) ↔
      asksDiscovery sampleDeps "  discover-request\n" = true) :=
  process_publishes_iff sampleDeps ⟨"bethrou", "N", ["/ip4/127.0.0.1/tcp/4000"]⟩ []
    "  discover-request\n" (by intro req; simp [sampleDeps]) ⟨"N", rfl⟩

/-! ### Discovery: deadline -/

/-- Claim C18 as stated fails: for a configured timeout of 0 the deadline
that `collectDiscover` arms is ten seconds, not the zero duration. -/
theorem collectTimeout_zero_is_default :
    collectTimeout 0 = 10000000000 ∧ collectTimeout 0 ≠ 0 := by
  decide

/-- Claim C18, amended: a configured timeout of 0 stands for the default, the
deadline armed is ten seconds; every other configured timeout is the deadline
itself; the deadline armed is never the zero duration. -/
theorem collectTimeout_spec (t : Int) :
    (t = 0 → collectTimeout t = 10 * client.Second) ∧
    (t ≠ 0 → collectTimeout t = t) ∧
    collectTimeout t ≠ 0 := by
  unfold collectTimeout
  by_cases h : t = 0
  · simp [h, client.Second]
  · simp [h]

/-- Witness for C18 (amended): a configured timeout of five seconds is the
deadline. -/
theorem collectTimeout_spec_witness : collectTimeout (5 * client.Second) = 5 * client.Second :=
  (collectTimeout_spec (5 * client.Second)).2.1 (by decide)

/-! ### Node identity -/

open identity

/-- Claim C19: when no file exists at the key path, and key generation,
marshalling and the write succeed, `LoadOrGenerate` returns the generated key
and leaves at the path a file with the marshalled bytes and permissions 0600;
when unmarshalling those bytes gives a key that `Equals` the generated one, a
following `LoadOrGenerate` on the same path returns that key and leaves the
files exactly as they were. -/
theorem LoadOrGenerate_roundtrip {K : Type} (lib : Lib K) (keyPath : String) (fs : FS)
    (rnd1 rnd2 : Nat) (k k2 : K) (b : Bytes)
    (habsent : fs (NewManager keyPath).keyPath = none)
    (hgen : lib.GenerateEd25519Key rnd1 = Except.ok k)
    (hmarshal : lib.MarshalPrivateKey k = Except.ok b)
    (hwrite : lib.WriteErr (NewManager keyPath).keyPath b = none)
    (hunmarshal : lib.UnmarshalPrivateKey b = Except.ok k2)
    (hequals : lib.Equals k k2 = true) :
    ∃ fs1 : FS,
      (NewManager keyPath).LoadOrGenerate lib rnd1 fs = (Except.ok k, fs1) ∧
      fs1 (NewManager keyPath).keyPath = some { data := b, perm := 0o600 } ∧
      (∀ q, q ≠ (NewManager keyPath).keyPath → fs1 q = fs q) ∧
      (NewManager keyPath).LoadOrGenerate lib rnd2 fs1 = (Except.ok k2, fs1) ∧
      lib.Equals k k2 = true := by
  refine ⟨fun q => if q = (NewManager keyPath).keyPath
      then some { data := b, perm := 0o600 } else fs q, ?_, ?_, ?_, ?_, hequals⟩
  · simp [Manager.LoadOrGenerate, Manager.generateAndSave, WriteFile, habsent, hgen, hmarshal,
      hwrite, keyFilePerms]
  · simp
  · intro q hq
    simp [hq]
  · simp [Manager.LoadOrGenerate, Manager.load, ReadFile, hunmarshal]

/-- Witness for C19: on an empty disk, with the sample library, the key
generated from the randomness 42 is stored under `node.key` and loaded again
by the second call. -/
theorem LoadOrGenerate_roundtrip_witness :
    ∃ fs1 : FS,
      (NewManager "").LoadOrGenerate sampleLib 42 emptyFS = (Except.ok 42, fs1) ∧
      fs1 (NewManager "").keyPath = some { data := [42], perm := 0o600 } ∧
      (∀ q, q ≠ (NewManager "").keyPath → fs1 q = emptyFS q) ∧
      (NewManager "").LoadOrGenerate sampleLib 7 fs1 = (Except.ok 42, fs1) ∧
      sampleLib.Equals 42 42 = true :=
  LoadOrGenerate_roundtrip sampleLib "" emptyFS 42 7 42 42 [42] rfl rfl rfl rfl rfl rfl

/-! ### Fastest selection on probed pools -/

theorem fastestScan_first_minimum (rest : List Connection) :
    ∀ (pre mid : List Connection) (b : Connection),
      (∀ d ∈ pre, b.Latency < d.Latency) → (∀ d ∈ mid, b.Latency ≤ d.Latency) →
      (∀ c ∈ rest, 0 < c.Latency) →
      ∃ (pre1 post1 : List Connection) (best : Connection),
        pre ++ b :: mid ++ rest = pre1 ++ best :: post1 ∧
        (∀ d ∈ pre1, best.Latency < d.Latency) ∧
        (∀ d ∈ post1, best.Latency ≤ d.Latency) ∧
        fastestScan (some b) rest = some best := by
  induction rest with
  | nil =>
    intro pre mid b hpre hmid _
    exact ⟨pre, mid, b, by simp, hpre, hmid, rfl⟩
  | cons c rest ih =>
    intro pre mid b hpre hmid hpos
    have hc : 0 < c.Latency := hpos c (List.mem_cons_self _ _)
    have hrest : ∀ d ∈ rest, 0 < d.Latency := fun d hd => hpos d (List.mem_cons_of_mem _ hd)
    by_cases hlt : c.Latency < b.Latency
    · have hstep : fastestScan (some b) (c :: rest) = fastestScan (some c) rest := by
        simp [fastestScan, fastestStep, hc, hlt]
      obtain ⟨pre1, post1, best, hsplit, h1, h2, hscan⟩ :=
        ih (pre ++ b :: mid) [] c
          (by
            intro d hd
            rcases List.mem_append.1 hd with h | h
            · exact lt_trans hlt (hpre d h)
            · rcases List.mem_cons.1 h with h | h
              · rw [h]; exact hlt
              · exact lt_of_lt_of_le hlt (hmid d h))
          (by simp) hrest
      refine ⟨pre1, post1, best, ?_, h1, h2, by rw [hstep, hscan]⟩
      rw [← hsplit]
      simp
    · have hstep : fastestScan (some b) (c :: rest) = fastestScan (some b) rest := by
        simp [fastestScan, fastestStep, hlt]
      obtain ⟨pre1, post1, best, hsplit, h1, h2, hscan⟩ :=
        ih pre (mid ++ [c]) b hpre
          (by
            intro d hd
            rcases List.mem_append.1 hd with h | h
            · exact hmid d h
            · have hd : d = c := by simpa using h
              rw [hd]
              exact not_lt.1 hlt)
          hrest
      refine ⟨pre1, post1, best, ?_, h1, h2, by rw [hstep, hscan]⟩
      rw [← hsplit]
      simp

/-- Claim C20: for every non-empty pool in which all latencies are strictly
positive and every draw, `SelectFastest` returns the first connection, in pool
order, that has the minimum latency: every connection before it has a
strictly larger latency, every connection after it a larger or equal one. -/
theorem SelectFastest_first_minimum (p : Pool) (r : Nat) (hne : p.conns ≠ [])
    (hpos : ∀ c ∈ p.conns, 0 < c.Latency) :
    ∃ (pre post : List Connection) (best : Connection),
      p.conns = pre ++ best :: post ∧
      (∀ d ∈ pre, best.Latency < d.Latency) ∧
      (∀ d ∈ post, best.Latency ≤ d.Latency) ∧
      p.SelectFastest r = some best := by
  cases hconns : p.conns with
  | nil => exact absurd hconns hne
  | cons b rest =>
    rw [hconns] at hpos
    obtain ⟨pre1, post1, best, hsplit, h1, h2, hscan⟩ :=
      fastestScan_first_minimum rest [] [] b (by simp) (by simp)
        (fun c hc => hpos c (List.mem_cons_of_mem _ hc))
    refine ⟨pre1, post1, best, by simpa using hsplit, h1, h2, ?_⟩
    have hmem : best ∈ b :: rest := by
      have : best ∈ pre1 ++ best :: post1 := by simp
      rw [← hsplit] at this
      simpa using this
    have hbest : best.Latency ≠ 0 := ne_of_gt (hpos best hmem)
    have hfull : fastestScan none (b :: rest) = some best := by
      simpa [fastestScan, fastestStep] using hscan
    unfold Pool.SelectFastest
    simp [hconns, hfull, hbest]

/-- Witness for C20: with the latencies 50 ms, 20 ms and 200 ms set by
`UpdateLatency`, `SelectFastest` returns the 20 ms connection; after that
latency is replaced by one hour it returns the 50 ms connection. -/
theorem SelectFastest_first_minimum_witness :
    (∃ (pre post : List Connection) (best : Connection),
      scenarioPool.conns = pre ++ best :: post ∧
      (∀ d ∈ pre, best.Latency < d.Latency) ∧
      (∀ d ∈ post, best.Latency ≤ d.Latency) ∧
      scenarioPool.SelectFastest 0 = some best) ∧
    scenarioPool.SelectFastest 0 = some ⟨"B", "/b", 20 * Millisecond⟩ ∧
    (scenarioPool.UpdateLatency "B" Hour).SelectFastest 0 = some ⟨"A", "/a", 50 * Millisecond⟩ :=
  ⟨SelectFastest_first_minimum scenarioPool 0 (by decide) (by decide), by decide, by decide⟩

/-! ### Remove and UpdateLatency, connection by connection -/

theorem removeFirst_no_match (x : String) (cs : List Connection)
    (h : ∀ d ∈ cs, d.PeerID ≠ x) : removeFirst x cs = cs := by
  induction cs with
  | nil => rfl
  | cons c cs ih =>
    have hc : ¬ c.PeerID = x := h c (List.mem_cons_self _ _)
    simp only [removeFirst, hc, if_false]
    rw [ih (fun d hd => h d (List.mem_cons_of_mem _ hd))]

theorem removeFirst_split (x : String) (pre : List Connection) (c : Connection)
    (post : List Connection) (hpre : ∀ d ∈ pre, d.PeerID ≠ x) (hc : c.PeerID = x) :
    removeFirst x (pre ++ c :: post) = pre ++ post := by
  induction pre with
  | nil => simp [removeFirst, hc]
  | cons a pre ih =>
    have ha : ¬ a.PeerID = x := hpre a (List.mem_cons_self _ _)
    simp only [List.cons_append, removeFirst, ha, if_false]
    exact congrArg (List.cons a) (ih (fun d hd => hpre d (List.mem_cons_of_mem _ hd)))

theorem first_match_split (x : String) (cs : List Connection)
    (h : ∃ d ∈ cs, d.PeerID = x) :
    ∃ (pre : List Connection) (c : Connection) (post : List Connection),
      cs = pre ++ c :: post ∧ c.PeerID = x ∧ ∀ d ∈ pre, d.PeerID ≠ x := by
  induction cs with
  | nil => simp at h
  | cons a cs ih =>
    by_cases ha : a.PeerID = x
    · exact ⟨[], a, cs, rfl, ha, by simp⟩
    · obtain ⟨d, hd, hdx⟩ := h
      have hd1 : d ∈ cs := by
        rcases List.mem_cons.1 hd with h1 | h1
        · exact absurd (h1 ▸ hdx) ha
        · exact h1
      obtain ⟨pre, c, post, hsplit, hc, hpre⟩ := ih ⟨d, hd1, hdx⟩
      refine ⟨a :: pre, c, post, by simp [hsplit], hc, ?_⟩
      intro e he
      rcases List.mem_cons.1 he with h1 | h1
      · rw [h1]; exact ha
      · exact hpre e h1

/-- Claim C21: `Remove(p)` leaves strategy and cursor alone; when no
connection has peer id `p` the pool is unchanged; otherwise the connections
split as `pre ++ c :: post` with `c` the first one of peer id `p`, and the
result is `pre ++ post`: exactly `c` is deleted, all other connections keep
their contents and order, later ones of the same peer included. `Size()`
decreases by one exactly when `p` was present. -/
theorem Remove_deletes_first_match (p : Pool) (peerID : String) :
    (p.Remove peerID).strategy = p.strategy ∧
    (p.Remove peerID).rrIndex = p.rrIndex ∧
    ((∀ d ∈ p.conns, d.PeerID ≠ peerID) → p.Remove peerID = p) ∧
    (∀ (pre : List Connection) (c : Connection) (post : List Connection),
      p.conns = pre ++ c :: post → c.PeerID = peerID → (∀ d ∈ pre, d.PeerID ≠ peerID) →
      (p.Remove peerID).conns = pre ++ post) ∧
    ((∃ d ∈ p.conns, d.PeerID = peerID) →
      ∃ (pre : List Connection) (c : Connection) (post : List Connection),
        p.conns = pre ++ c :: post ∧ c.PeerID = peerID ∧ (∀ d ∈ pre, d.PeerID ≠ peerID) ∧
        (p.Remove peerID).conns = pre ++ post) ∧
    ((p.Remove peerID).Size + 1 = p.Size ↔ ∃ d ∈ p.conns, d.PeerID = peerID) := by
  have hsplit : ∀ (pre : List Connection) (c : Connection) (post : List Connection),
      p.conns = pre ++ c :: post → c.PeerID = peerID → (∀ d ∈ pre, d.PeerID ≠ peerID) →
      (p.Remove peerID).conns = pre ++ post := by
    intro pre c post h hc hpre
    simp only [Pool.Remove, h]
    exact removeFirst_split peerID pre c post hpre hc
  have hnone : (∀ d ∈ p.conns, d.PeerID ≠ peerID) → p.Remove peerID = p := by
    intro h
    simp only [Pool.Remove, removeFirst_no_match peerID p.conns h]
  refine ⟨rfl, rfl, hnone, hsplit, ?_, ?_⟩
  · intro h
    obtain ⟨pre, c, post, hs, hc, hpre⟩ := first_match_split peerID p.conns h
    exact ⟨pre, c, post, hs, hc, hpre, hsplit pre c post hs hc hpre⟩
  · constructor
    · intro hsize
      by_contra hno
      have hall : ∀ d ∈ p.conns, d.PeerID ≠ peerID := by
        intro d hd hdx
        exact hno ⟨d, hd, hdx⟩
      rw [hnone hall] at hsize
      omega
    · intro h
      obtain ⟨pre, c, post, hs, hc, hpre⟩ := first_match_split peerID p.conns h
      have h1 := hsplit pre c post hs hc hpre
      simp only [Pool.Size, h1, hs, List.length_append, List.length_cons]
      omega

/-- Witness for C21: in the pool `[A at /a, B at /b, A at /c]`, `Remove(A)`
deletes the first connection and keeps the later one of the same peer. -/
theorem Remove_deletes_first_match_witness :
    (Pool.Remove ⟨[⟨"A", "/a", 5⟩, ⟨"B", "/b", 7⟩, ⟨"A", "/c", 9⟩], RandomStrategy, 2⟩ "A").conns
      = [] ++ [⟨"B", "/b", 7⟩, ⟨"A", "/c", 9⟩] :=
  (Remove_deletes_first_match ⟨[⟨"A", "/a", 5⟩, ⟨"B", "/b", 7⟩, ⟨"A", "/c", 9⟩], RandomStrategy, 2⟩
    "A").2.2.2.1 [] ⟨"A", "/a", 5⟩ [⟨"B", "/b", 7⟩, ⟨"A", "/c", 9⟩] rfl rfl (by simp)

theorem setLatencyFirst_no_match (x : String) (l : Int) (cs : List Connection)
    (h : ∀ d ∈ cs, d.PeerID ≠ x) : setLatencyFirst x l cs = cs := by
  induction cs with
  | nil => rfl
  | cons c cs ih =>
    have hc : ¬ c.PeerID = x := h c (List.mem_cons_self _ _)
    simp only [setLatencyFirst, hc, if_false]
    rw [ih (fun d hd => h d (List.mem_cons_of_mem _ hd))]

theorem setLatencyFirst_split (x : String) (l : Int) (pre : List Connection) (c : Connection)
    (post : List Connection) (hpre : ∀ d ∈ pre, d.PeerID ≠ x) (hc : c.PeerID = x) :
    setLatencyFirst x l (pre ++ c :: post) = pre ++ { c with Latency := l } :: post := by
  induction pre with
  | nil => simp [setLatencyFirst, hc]
  | cons a pre ih =>
    have ha : ¬ a.PeerID = x := hpre a (List.mem_cons_self _ _)
    simp only [List.cons_append, setLatencyFirst, ha, if_false]
    exact congrArg (List.cons a) (ih (fun d hd => hpre d (List.mem_cons_of_mem _ hd)))

/-- Claim C22: `UpdateLatency(p, d)` leaves size, strategy and cursor alone;
when no connection has peer id `p` the pool is unchanged; otherwise the
connections split as `pre ++ c :: post` with `c` the first one of peer id `p`,
and the result is `pre ++ c1 :: post` where `c1` is `c` with latency `d`: no
other field of `c`, no other connection and no position changes. -/
theorem UpdateLatency_sets_first_match (p : Pool) (peerID : String) (latency : Int) :
    (p.UpdateLatency peerID latency).Size = p.Size ∧
    (p.UpdateLatency peerID latency).strategy = p.strategy ∧
    (p.UpdateLatency peerID latency).rrIndex = p.rrIndex ∧
    ((∀ d ∈ p.conns, d.PeerID ≠ peerID) → p.UpdateLatency peerID latency = p) ∧
    (∀ (pre : List Connection) (c : Connection) (post : List Connection),
      p.conns = pre ++ c :: post → c.PeerID = peerID → (∀ d ∈ pre, d.PeerID ≠ peerID) →
      (p.UpdateLatency peerID latency).conns
        = pre ++ { PeerID := c.PeerID, Addr := c.Addr, Latency := latency } :: post) ∧
    ((∃ d ∈ p.conns, d.PeerID = peerID) →
      ∃ (pre : List Connection) (c : Connection) (post : List Connection),
        p.conns = pre ++ c :: post ∧ c.PeerID = peerID ∧ (∀ d ∈ pre, d.PeerID ≠ peerID) ∧
        (p.UpdateLatency peerID latency).conns
          = pre ++ { PeerID := c.PeerID, Addr := c.Addr, Latency := latency } :: post) := by
  have hsplit : ∀ (pre : List Connection) (c : Connection) (post : List Connection),
      p.conns = pre ++ c :: post → c.PeerID = peerID → (∀ d ∈ pre, d.PeerID ≠ peerID) →
      (p.UpdateLatency peerID latency).conns
        = pre ++ { PeerID := c.PeerID, Addr := c.Addr, Latency := latency } :: post := by
    intro pre c post h hc hpre
    simp only [Pool.UpdateLatency, h]
    exact setLatencyFirst_split peerID latency pre c post hpre hc
  refine ⟨?_, rfl, rfl, ?_, hsplit, ?_⟩
  · have h := congrArg List.length (endpoints_setLatencyFirst peerID latency p.conns)
    simpa [endpoints, Pool.Size, Pool.UpdateLatency] using h
  · intro h
    simp only [Pool.UpdateLatency, setLatencyFirst_no_match peerID latency p.conns h]
  · intro h
    obtain ⟨pre, c, post, hs, hc, hpre⟩ := first_match_split peerID p.conns h
    exact ⟨pre, c, post, hs, hc, hpre, hsplit pre c post hs hc hpre⟩

/-- Witness for C22: in the pool `[A at /a, B at /b, A at /c]`,
`UpdateLatency(A, 42)` sets the latency of the first connection only. -/
theorem UpdateLatency_sets_first_match_witness :
    (Pool.UpdateLatency ⟨[⟨"A", "/a", 5⟩, ⟨"B", "/b", 7⟩, ⟨"A", "/c", 9⟩], RandomStrategy, 2⟩
        "A" 42).conns
      = [] ++ ⟨"A", "/a", 42⟩ :: [⟨"B", "/b", 7⟩, ⟨"A", "/c", 9⟩] :=
  (UpdateLatency_sets_first_match
    ⟨[⟨"A", "/a", 5⟩, ⟨"B", "/b", 7⟩, ⟨"A", "/c", 9⟩], RandomStrategy, 2⟩ "A" 42).2.2.2.2.1
    [] ⟨"A", "/a", 5⟩ [⟨"B", "/b", 7⟩, ⟨"A", "/c", 9⟩] rfl rfl (by simp)

/-! ### Cursor safety -/

/-- Claim C23: in every pool state reachable from `NewPool` through `Add`,
`Remove`, `Clear`, `UpdateLatency`, `SetStrategy` and the selectors, the cursor
is non-negative, and whenever the pool is not empty the index
`rrIndex % len(conns)` used by `SelectRoundRobin` is non-negative and below
the length, so the call returns a connection and does not panic. -/
theorem reachable_roundRobin_in_bounds (p : Pool) (h : Reachable p) :
    0 ≤ p.rrIndex ∧
    (p.conns ≠ [] →
      0 ≤ Int.tmod p.rrIndex p.conns.length ∧
      (Int.tmod p.rrIndex p.conns.length).toNat < p.conns.length ∧
      ∃ (c : Connection) (q : Pool), p.SelectRoundRobin = Run.ret (some c, q)) := by
  have hnn := Reachable.rrIndex_nonneg h
  refine ⟨hnn, ?_⟩
  intro hne
  obtain ⟨i, hi⟩ := Int.eq_ofNat_of_zero_le hnn
  have hlen : p.conns.length ≠ 0 := fun h0 => hne (List.length_eq_zero.1 h0)
  have hlt : i % p.conns.length < p.conns.length := Nat.mod_lt _ (Nat.pos_of_ne_zero hlen)
  have hmod : Int.tmod p.rrIndex (p.conns.length : Int) = ((i % p.conns.length : Nat) : Int) := by
    rw [hi]
    exact (Int.ofNat_tmod i p.conns.length).symm
  refine ⟨by rw [hmod]; omega, by rw [hmod]; simpa using hlt, ?_⟩
  refine ⟨p.conns[i % p.conns.length],
    { p with rrIndex := (((i + 1) % p.conns.length : Nat) : Int) }, ?_⟩
  rw [SelectRoundRobin_of_nonneg p i hi hlen, List.getElem?_eq_getElem hlt]

/-- Witness for C23: three connections are added, two round-robin calls move
the cursor to 2, then two connections are removed; the cursor 2 now exceeds
the length 1, and the next call still returns a connection. -/
theorem reachable_roundRobin_in_bounds_witness :
    0 ≤ (Pool.Remove (Pool.Remove
        ⟨[⟨"A", "/a", 0⟩, ⟨"B", "/b", 0⟩, ⟨"C", "/c", 0⟩], RandomStrategy, 2⟩ "B") "C").rrIndex ∧
    ((Pool.Remove (Pool.Remove
        ⟨[⟨"A", "/a", 0⟩, ⟨"B", "/b", 0⟩, ⟨"C", "/c", 0⟩], RandomStrategy, 2⟩ "B") "C").conns ≠ [] →
      0 ≤ Int.tmod
          (Pool.Remove (Pool.Remove
            ⟨[⟨"A", "/a", 0⟩, ⟨"B", "/b", 0⟩, ⟨"C", "/c", 0⟩], RandomStrategy, 2⟩ "B") "C").rrIndex
          (Pool.Remove (Pool.Remove
            ⟨[⟨"A", "/a", 0⟩, ⟨"B", "/b", 0⟩, ⟨"C", "/c", 0⟩], RandomStrategy, 2⟩ "B") "C").conns.length ∧
      (Int.tmod
          (Pool.Remove (Pool.Remove
            ⟨[⟨"A", "/a", 0⟩, ⟨"B", "/b", 0⟩, ⟨"C", "/c", 0⟩], RandomStrategy, 2⟩ "B") "C").rrIndex
          (Pool.Remove (Pool.Remove
            ⟨[⟨"A", "/a", 0⟩, ⟨"B", "/b", 0⟩, ⟨"C", "/c", 0⟩], RandomStrategy, 2⟩ "B") "C").conns.length).toNat
        < (Pool.Remove (Pool.Remove
            ⟨[⟨"A", "/a", 0⟩, ⟨"B", "/b", 0⟩, ⟨"C", "/c", 0⟩], RandomStrategy, 2⟩ "B") "C").conns.length ∧
      ∃ (c : Connection) (q : Pool),
        (Pool.Remove (Pool.Remove
          ⟨[⟨"A", "/a", 0⟩, ⟨"B", "/b", 0⟩, ⟨"C", "/c", 0⟩], RandomStrategy, 2⟩ "B") "C").SelectRoundRobin
          = Run.ret (some c, q)) :=
  reachable_roundRobin_in_bounds _
    (Reachable.remove _ "C" (Reachable.remove _ "B"
      (Reachable.selectRoundRobin
        ⟨[⟨"A", "/a", 0⟩, ⟨"B", "/b", 0⟩, ⟨"C", "/c", 0⟩], RandomStrategy, 1⟩
        ⟨[⟨"A", "/a", 0⟩, ⟨"B", "/b", 0⟩, ⟨"C", "/c", 0⟩], RandomStrategy, 2⟩
        (some ⟨"B", "/b", 0⟩)
        (Reachable.selectRoundRobin
          ((((NewPool FastestStrategy).Add "A" "/a").Add "B" "/b").Add "C" "/c")
          ⟨[⟨"A", "/a", 0⟩, ⟨"B", "/b", 0⟩, ⟨"C", "/c", 0⟩], RandomStrategy, 1⟩
          (some ⟨"A", "/a", 0⟩)
          (Reachable.add _ "C" "/c" (Reachable.add _ "B" "/b"
            (Reachable.add _ "A" "/a" (Reachable.new FastestStrategy))))
          (by decide))
        (by decide))))

/-! ### Strategy names -/

/-- Claim C24: for every strategy argument `s`, `NewPool(s)` is an empty pool
(`Size() == 0`, no connections) with cursor 0 whose `GetStrategy()` is
`RandomStrategy`, whatever `s` is. -/
theorem NewPool_empty_random (s : PoolStrategy) :
    (NewPool s).Size = 0 ∧ (NewPool s).conns = [] ∧ (NewPool s).rrIndex = 0 ∧
    (NewPool s).GetStrategy = RandomStrategy := by
  refine ⟨?_, ?_, ?_, ?_⟩ <;> rfl

/-- Claim C25, evaluated on the code: the name `fastest` is accepted by
`RoutingConfig.Validate`, but converted to a `PoolStrategy` it is not
`FastestStrategy` (which is `latency`); `SelectByStrategy` treats it as an
unknown value and selects like `SelectRandom`, and `DialByStrategy` on a pool
with that strategy returns `unknown dialing strategy`. The names `random` and
`round-robin` do equal their constants. -/
theorem fastest_name_is_not_FastestStrategy :
    (∀ parseDuration : String → Except String Int,
      RoutingConfig.Validate parseDuration { Strategy := "fastest", Health := "", Timeout := "" }
        = none) ∧
    (("fastest" : PoolStrategy) ≠ FastestStrategy) ∧
    (("random" : PoolStrategy) = RandomStrategy) ∧
    (("round-robin" : PoolStrategy) = RoundRobinStrategy) ∧
    (∀ (p : Pool) (r : Nat), p.SelectByStrategy "fastest" r = Run.ret (p.SelectRandom r, p)) ∧
    (∀ (net : Net) (d : proxy.Client) (r : Nat) (addr : String),
      d.Pool.GetStrategy = "fastest" →
      d.DialByStrategy net r addr = Run.ret (Except.error "unknown dialing strategy", d)) := by
  refine ⟨?_, by decide, rfl, rfl, ?_, ?_⟩
  · intro parseDuration
    simp [RoutingConfig.Validate]
  · intro p r
    have h1 : ¬ ("fastest" : PoolStrategy) = RandomStrategy := by decide
    have h2 : ¬ ("fastest" : PoolStrategy) = FastestStrategy := by decide
    have h3 : ¬ ("fastest" : PoolStrategy) = RoundRobinStrategy := by decide
    simp only [Pool.SelectByStrategy, h1, h2, h3, if_false]
  · intro net d r addr h
    have h1 : ¬ ("fastest" : PoolStrategy) = RandomStrategy := by decide
    have h2 : ¬ ("fastest" : PoolStrategy) = FastestStrategy := by decide
    have h3 : ¬ ("fastest" : PoolStrategy) = RoundRobinStrategy := by decide
    simp only [proxy.Client.DialByStrategy, h, h1, h2, h3, if_false]

/-! ### Health loop when every probe fails -/

/-- Setting the latency of peer `y` changes the latency of the first connection
of peer `x` exactly when `x = y`. -/
theorem firstLatency_setLatencyFirst (x y : String) (l : Int) (cs : List Connection) :
    ((setLatencyFirst y l cs).find? (fun c => decide (c.PeerID = x))).map (fun c => c.Latency)
      = if x = y then
          ((cs.find? (fun c => decide (c.PeerID = x))).map (fun c => c.Latency)).map (fun _ => l)
        else (cs.find? (fun c => decide (c.PeerID = x))).map (fun c => c.Latency) := by
  induction cs with
  | nil => simp [setLatencyFirst]
  | cons c cs ih =>
    unfold setLatencyFirst
    by_cases hcy : c.PeerID = y
    · by_cases hxy : x = y
      · have hcx : c.PeerID = x := hcy.trans hxy.symm
        simp [hcy, hxy, List.find?_cons]
      · have hcx : ¬ c.PeerID = x := fun h => hxy (h.symm.trans hcy)
        have hyx : ¬ y = x := fun h => hxy h.symm
        simp [hcy, hxy, hyx, List.find?_cons]
    · simp only [hcy, if_false]
      by_cases hcx : c.PeerID = x
      · have hxy : ¬ x = y := fun h => hcy (hcx.trans h)
        simp [hcx, hxy, List.find?_cons]
      · simp only [List.find?_cons, hcx, decide_False]
        exact ih

theorem probe_fold_all_fail (net : Net)
    (hfail : ∀ (h : Host) (peer : String), net.NewStream h peer PingProtocolID ≠ none)
    (snapshot : List Connection) :
    ∀ cli : proxy.Client,
      (snapshot.foldl (probeOne net) cli).Pool.conns
        = snapshot.foldl (fun cs c => setLatencyFirst c.PeerID Hour cs) cli.Pool.conns := by
  induction snapshot with
  | nil => intro cli; rfl
  | cons c rest ih =>
    intro cli
    simp only [List.foldl_cons]
    rw [ih (probeOne net cli c)]
    have hstep : (probeOne net cli c).Pool.conns = setLatencyFirst c.PeerID Hour cli.Pool.conns := by
      unfold probeOne proxy.Client.Ping proxy.Host.NewStream
      cases hs : net.NewStream cli.Host c.PeerID PingProtocolID with
      | none => exact absurd hs (hfail cli.Host c.PeerID)
      | some err => simp [Pool.UpdateLatency]
    rw [hstep]

theorem mark_fold_first_hour (x : String) (snapshot : List Connection) :
    ∀ cs : List Connection,
      (cs.find? (fun c => decide (c.PeerID = x))).isSome = true →
      (x ∈ snapshot.map (fun c => c.PeerID) ∨
        (cs.find? (fun c => decide (c.PeerID = x))).map (fun c => c.Latency) = some Hour) →
      ((snapshot.foldl (fun cs c => setLatencyFirst c.PeerID Hour cs) cs).find?
          (fun c => decide (c.PeerID = x))).map (fun c => c.Latency) = some Hour := by
  induction snapshot with
  | nil =>
    intro cs _ h
    rcases h with h | h
    · simp at h
    · exact h
  | cons c rest ih =>
    intro cs hsome h
    simp only [List.foldl_cons]
    have hset := firstLatency_setLatencyFirst x c.PeerID Hour cs
    obtain ⟨v, hv⟩ := Option.isSome_iff_exists.1 hsome
    have hsome1 : ((setLatencyFirst c.PeerID Hour cs).find?
        (fun c => decide (c.PeerID = x))).isSome = true := by
      cases hf : (setLatencyFirst c.PeerID Hour cs).find? (fun c => decide (c.PeerID = x)) with
      | some w => rfl
      | none =>
        rw [hf, hv] at hset
        by_cases hxc : x = c.PeerID <;> simp [hxc] at hset
    apply ih _ hsome1
    by_cases hxc : x = c.PeerID
    · right
      rw [hset, hv]
      simp [hxc]
    · rcases h with h | h
      · left
        simp only [List.map_cons, List.mem_cons] at h
        rcases h with h | h
        · exact absurd h hxc
        · exact h
      · right
        rw [hset, if_neg hxc]
        exact h

theorem find_self_of_nodup (cs : List Connection) :
    (cs.map (fun c => c.PeerID)).Nodup → ∀ c ∈ cs,
      cs.find? (fun d => decide (d.PeerID = c.PeerID)) = some c := by
  induction cs with
  | nil => intro _ c hc; simp at hc
  | cons a cs ih =>
    intro hnd c hc
    simp only [List.map_cons, List.nodup_cons] at hnd
    rcases List.mem_cons.1 hc with h | h
    · subst h
      simp [List.find?_cons]
    · have hne : ¬ a.PeerID = c.PeerID := by
        intro heq
        apply hnd.1
        rw [heq]
        exact List.mem_map_of_mem (fun c => c.PeerID) h
      simp only [List.find?_cons, hne, decide_False]
      exact ih hnd.2 c h

/-- Claim C26 as stated fails: in the pool holding two connections of the
peer `A`, a tick in which every probe fails sets the latency of the first one
to one hour twice over and leaves the second one at 0. -/
theorem healthTick_duplicate_peer_keeps_latency :
    (∀ (h : Host) (peer : String), deadNet.NewStream h peer PingProtocolID ≠ none) ∧
    (healthTick deadNet
        { Host := { connects := [], streams := [] },
          Pool := ⟨[⟨"A", "/a", 0⟩, ⟨"A", "/b", 0⟩], RandomStrategy, 0⟩ }).Pool.conns
      = [⟨"A", "/a", Hour⟩, ⟨"A", "/b", 0⟩] ∧
    (∃ c ∈ (healthTick deadNet
        { Host := { connects := [], streams := [] },
          Pool := ⟨[⟨"A", "/a", 0⟩, ⟨"A", "/b", 0⟩], RandomStrategy, 0⟩ }).Pool.conns,
      c.Latency ≠ Hour) := by
  refine ⟨?_, by decide, ⟨⟨"A", "/b", 0⟩, by decide, by decide⟩⟩
  intro h peer
  simp [deadNet]

/-- Claim C26, amended: after one health-loop tick in which every probe
fails, the first connection (in pool order) of every peer id of the pool has
latency one hour; so every connection of the pool has latency one hour when
the peer ids of the pool are pairwise distinct. -/
theorem healthTick_all_fail_first_hour (net : Net) (cli : proxy.Client)
    (hfail : ∀ (h : Host) (peer : String), net.NewStream h peer PingProtocolID ≠ none) :
    (∀ x ∈ cli.Pool.conns.map (fun c => c.PeerID),
      ((healthTick net cli).Pool.conns.find? (fun c => decide (c.PeerID = x))).map
        (fun c => c.Latency) = some Hour) ∧
    ((cli.Pool.conns.map (fun c => c.PeerID)).Nodup →
      ∀ c ∈ (healthTick net cli).Pool.conns, c.Latency = Hour) := by
  have hfirst : ∀ x ∈ cli.Pool.conns.map (fun c => c.PeerID),
      ((healthTick net cli).Pool.conns.find? (fun c => decide (c.PeerID = x))).map
        (fun c => c.Latency) = some Hour := by
    intro x hx
    unfold healthTick Pool.All
    rw [probe_fold_all_fail net hfail cli.Pool.conns cli]
    apply mark_fold_first_hour x cli.Pool.conns cli.Pool.conns _ (Or.inl hx)
    obtain ⟨c, hc, hcx⟩ := List.mem_map.1 hx
    rw [List.find?_isSome]
    exact ⟨c, hc, by simpa using hcx⟩
  refine ⟨hfirst, ?_⟩
  intro hnd c hc
  have hframe := (probe_fold_frame net cli.Pool.All cli).1
  have hids : (healthTick net cli).Pool.conns.map (fun c => c.PeerID)
      = cli.Pool.conns.map (fun c => c.PeerID) := by
    have h := congrArg (List.map Prod.fst) hframe
    simpa [endpoints, healthTick, List.map_map, Function.comp] using h
  have hnd1 : ((healthTick net cli).Pool.conns.map (fun c => c.PeerID)).Nodup := by
    rw [hids]; exact hnd
  have hx : c.PeerID ∈ cli.Pool.conns.map (fun c => c.PeerID) := by
    rw [← hids]
    exact List.mem_map_of_mem (fun c => c.PeerID) hc
  have h1 := hfirst c.PeerID hx
  rw [find_self_of_nodup _ hnd1 c hc] at h1
  simpa using h1

/-- Witness for C26 (amended): two connections of different peers both end
the tick with latency one hour when no stream can be opened. -/
theorem healthTick_all_fail_first_hour_witness :
    (((healthTick deadNet
        { Host := { connects := [], streams := [] },
          Pool := ⟨[⟨"A", "/a", 0⟩, ⟨"B", "/b", 20⟩], RandomStrategy, 0⟩ }).Pool.conns.find?
        (fun c => decide (c.PeerID = "B"))).map (fun c => c.Latency) = some Hour) ∧
    ((healthTick deadNet
        { Host := { connects := [], streams := [] },
          Pool := ⟨[⟨"A", "/a", 0⟩, ⟨"B", "/b", 20⟩], RandomStrategy, 0⟩ }).Pool.conns.all
        (fun c => decide (c.Latency = Hour))) = true :=
  ⟨(healthTick_all_fail_first_hour deadNet
      { Host := { connects := [], streams := [] },
        Pool := ⟨[⟨"A", "/a", 0⟩, ⟨"B", "/b", 20⟩], RandomStrategy, 0⟩ }
      (by intro h peer; simp [deadNet])).1 "B" (by decide),
    List.all_eq_true.2 (fun c hc => decide_eq_true
      ((healthTick_all_fail_first_hour deadNet
        { Host := { connects := [], streams := [] },
          Pool := ⟨[⟨"A", "/a", 0⟩, ⟨"B", "/b", 20⟩], RandomStrategy, 0⟩ }
        (by intro h peer; simp [deadNet])).2 (by decide) c hc))⟩

/-! ### Discovery: server response against client check -/

/-- Claim C27 as stated fails: for a host without addresses the server
publishes a response with an empty address list; it decodes on the client to
that same response, and `collectDiscover` rejects it as incomplete. -/
theorem publish_without_addrs_is_rejected :
    (Service.publish wireDeps ⟨"bethrou", "N", []⟩ [] "client-reply-1").2
      = [("client-reply-1", "N[]")] ∧
    wireUnmarshal "N[]" = Except.ok (Service.response ⟨"bethrou", "N", []⟩) ∧
    malformed wireUnmarshal "N[]" = true ∧
    collectDiscover wireUnmarshal 0 ["N[]"]
      = Except.error "incomplete response: missing ID or addresses" := by
  refine ⟨?_, ?_, ?_, ?_⟩
  · simp [Service.publish, wireDeps, wireMarshal, sampleDeps, Service.response]
    decide
  · simp [wireUnmarshal, Service.response]
  · simp [malformed, wireUnmarshal]
  · simp [collectDiscover, collectLoop, collectStep, wireUnmarshal]

/-- Claim C27, amended: for a host with a non-empty peer id and at least one
address, the response that `publish` builds and puts on the reply channel
(id = the peer id, addrs = each host address with the p2p suffix), once
decoded by the client, is accepted by `collectDiscover` as complete and
yields exactly one node, with that id and those addrs. -/
theorem publish_response_accepted (deps : Deps) (s : Service) (bus : Bus) (reply : String)
    (unmarshal : String → Except String Response) (order : Nat) (b : String)
    (hid : s.HostID ≠ "") (haddrs : s.HostAddrs ≠ [])
    (hmarshal : deps.MarshalResponse s.response = Except.ok b)
    (hround : unmarshal b = Except.ok s.response) :
    (s.publish deps bus reply).2 = bus ++ [(reply, b)] ∧
    malformed unmarshal b = false ∧
    collectDiscover unmarshal order [b]
      = Except.ok [{ ID := s.HostID,
                     Addrs := s.HostAddrs.map (fun a => a ++ "/p2p/" ++ s.HostID),
                     Relay := "" }] := by
  have hne : s.response.Addrs ≠ [] := by
    simp only [Service.response, ne_eq, List.map_eq_nil_iff]
    exact haddrs
  have hlen : ¬ s.response.Addrs.length = 0 := fun h => hne (List.length_eq_zero.1 h)
  have hrid : s.response.ID ≠ "" := hid
  refine ⟨?_, ?_, ?_⟩
  · simp only [Service.publish, hmarshal]
    cases deps.Publish bus reply b <;> rfl
  · simp only [malformed, hround, Bool.or_eq_false_iff, decide_eq_false_iff_not]
    exact ⟨hrid, hlen⟩
  · have hstep := collectStep_complete unmarshal [] b s.response hround hrid hne
    obtain ⟨l, hperm, hrange⟩ := mapRange_perm order
      [(s.response.ID, ({ ID := s.response.ID, Addrs := s.response.Addrs, Relay := "" } : NodeConfig))]
    have hl : l = [(s.response.ID,
        ({ ID := s.response.ID, Addrs := s.response.Addrs, Relay := "" } : NodeConfig))] :=
      List.perm_singleton.1 hperm
    simp only [collectDiscover, collectLoop, hstep, List.map_nil, List.not_mem_nil, if_false,
      List.nil_append, hrange, hl, List.map_cons]
    rfl

/-- Witness for C27 (amended): a host with one address, in the sample wire
format. -/
theorem publish_response_accepted_witness :
    (Service.publish wireDeps ⟨"bethrou", "N", ["/ip4/127.0.0.1/tcp/4000"]⟩ []
        "client-reply-1").2
      = [] ++ [("client-reply-1", "N[/ip4/127.0.0.1/tcp/4000/p2p/N]")] ∧
    malformed wireUnmarshal "N[/ip4/127.0.0.1/tcp/4000/p2p/N]" = false ∧
    collectDiscover wireUnmarshal 0 ["N[/ip4/127.0.0.1/tcp/4000/p2p/N]"]
      = Except.ok [{ ID := (Service.mk "bethrou" "N" ["/ip4/127.0.0.1/tcp/4000"]).HostID,
                     Addrs := (Service.mk "bethrou" "N" ["/ip4/127.0.0.1/tcp/4000"]).HostAddrs.map
                       (fun a => a ++ "/p2p/"
                         ++ (Service.mk "bethrou" "N" ["/ip4/127.0.0.1/tcp/4000"]).HostID),
                     Relay := "" }] :=
  publish_response_accepted wireDeps ⟨"bethrou", "N", ["/ip4/127.0.0.1/tcp/4000"]⟩ []
    "client-reply-1" wireUnmarshal 0 "N[/ip4/127.0.0.1/tcp/4000/p2p/N]"
    (by decide) (by decide)
    (by simp [wireDeps, wireMarshal, Service.response]; decide)
    (by simp [wireUnmarshal, Service.response])
